import Mathlib

/-!
Verification of the chessmg move-generation library.

This file is a shallow embedding of the library's core source files
(`bitboard.rs`, `board.rs`, `magic.rs`, `move_gen.rs`, `piece.rs`) into Lean.
Machine integers (`u64`) are embedded as `Nat` with explicit `% 2 ^ 64`
where Rust's wrapping semantics matter; Rust panics (`unwrap`, `panic!`,
`todo!`) are embedded as `Option`/`Except` failures.

The crate's `utils.rs` and `errors.rs` modules are not among the available
sources; the definitions that come from them (squares, colors, kinds,
castling rights, the static ray/file/rank tables, algebraic square parsing
and the error type) are modelled from the specification and are marked
`Modelled from the spec` in their doc comments.
-/

set_option maxRecDepth 8000

/-- The modulus of Rust `u64` arithmetic. -/
def U64 : Nat := 2 ^ 64

/-- Rust `u64` left shift: bits shifted beyond position 63 are dropped. -/
def u64shl (x k : Nat) : Nat := (x <<< k) % U64

/-- Rust `u64` bitwise NOT (`!x`), i.e. XOR with `u64::MAX`. -/
def u64not (x : Nat) : Nat := x ^^^ (U64 - 1)

/-- Rust `u64::wrapping_mul`. -/
def wrapping_mul (x y : Nat) : Nat := (x * y) % U64

/-- Modelled from the spec (§3): a square is a value `0..63`, the bit index
in a bitboard (bit `8·rank + file`, bit 0 = a1, bit 63 = h8). The `Square`
enum itself lives in the crate's missing `utils.rs`. -/
abbrev Square := Fin 64

/-- Modelled from the spec (§3): `Square::from_usize` maps an index `0..63`
to the corresponding square; out-of-range indices are a panic. -/
def Square.from_usize (n : Nat) : Option Square :=
  if h : n < 64 then some ⟨n, h⟩ else none

/-- Modelled from the spec (§3): `Square::from_u8`. -/
def Square.from_u8 (n : Nat) : Option Square := Square.from_usize n

/-- Modelled from the spec (§3 and §4.4 `ep_mask`): `square_mask` is the
bitboard with exactly the bit of the given square set. -/
def square_mask (s : Square) : Nat := 2 ^ s.val

/-- The side colors (`utils.rs`; spec §3). -/
inductive Color
  | White
  | Black
deriving DecidableEq, Repr

/-- The piece kinds (`utils.rs`; spec §3). -/
inductive Kind
  | Pawn
  | Knight
  | Bishop
  | Rook
  | Queen
  | King
deriving DecidableEq, Repr

/-- Rank of a square (`sq >> 3`, spec §3). -/
def rankOf (s : Square) : Nat := s.val / 8

/-- File of a square (`sq & 7`, spec §3). -/
def fileOf (s : Square) : Nat := s.val % 8

/-- Modelled from the spec (§4.2 Static tables): the bitboard of squares
reached by repeatedly stepping `(dr, df)` from rank/file `(r, f)` until the
edge of the board, exclusive of the starting square. `fuel = 8` suffices on
an 8×8 board. -/
def rayFrom : Nat → Int → Int → Int → Int → Nat
  | 0, _, _, _, _ => 0
  | fuel + 1, r, f, dr, df =>
    let r' := r + dr
    let f' := f + df
    if 0 ≤ r' ∧ r' < 8 ∧ 0 ≤ f' ∧ f' < 8 then
      2 ^ (r' * 8 + f').toNat ||| rayFrom fuel r' f' dr df
    else 0

/-- Modelled from the spec (§4.2): `NORTH_RAY[s]`, the full northward ray
from `s` to the edge of the board, exclusive of `s`. -/
def NORTH_RAY (s : Square) : Nat := rayFrom 8 (rankOf s) (fileOf s) 1 0

/-- Modelled from the spec (§4.2): `SOUTH_RAY[s]`. -/
def SOUTH_RAY (s : Square) : Nat := rayFrom 8 (rankOf s) (fileOf s) (-1) 0

/-- Modelled from the spec (§4.2): `EAST_RAY[s]`. -/
def EAST_RAY (s : Square) : Nat := rayFrom 8 (rankOf s) (fileOf s) 0 1

/-- Modelled from the spec (§4.2): `WEST_RAY[s]`. -/
def WEST_RAY (s : Square) : Nat := rayFrom 8 (rankOf s) (fileOf s) 0 (-1)

/-- Modelled from the spec (§4.2): `NORTH_EAST_RAY[s]`. -/
def NORTH_EAST_RAY (s : Square) : Nat := rayFrom 8 (rankOf s) (fileOf s) 1 1

/-- Modelled from the spec (§4.2): `NORTH_WEST_RAY[s]`. -/
def NORTH_WEST_RAY (s : Square) : Nat := rayFrom 8 (rankOf s) (fileOf s) 1 (-1)

/-- Modelled from the spec (§4.2): `SOUTH_EAST_RAY[s]`. -/
def SOUTH_EAST_RAY (s : Square) : Nat := rayFrom 8 (rankOf s) (fileOf s) (-1) 1

/-- Modelled from the spec (§4.2): `SOUTH_WEST_RAY[s]`. -/
def SOUTH_WEST_RAY (s : Square) : Nat := rayFrom 8 (rankOf s) (fileOf s) (-1) (-1)

/-- Modelled from the spec (§4.2): the rank mask `MASK_RANK[r]`. -/
def MASK_RANK (r : Nat) : Nat := 255 <<< (8 * r)

/-- Modelled from the spec (§4.2): the file mask, one bit per rank.
`72340172838076673 = 0x0101010101010101`. -/
def MASK_FILE (f : Nat) : Nat := 72340172838076673 <<< f

/-- Modelled from the spec (§4.2): `CLEAR_RANK[r]`, complement of the rank mask. -/
def CLEAR_RANK (r : Nat) : Nat := u64not (MASK_RANK r)

/-- Modelled from the spec (§4.2): `CLEAR_FILE[f]`, complement of the file mask. -/
def CLEAR_FILE (f : Nat) : Nat := u64not (MASK_FILE f)

/-- `magic.rs` `generate_rook_attack_mask`: the plain union of the four
orthogonal ray-table entries for the square. -/
def generate_rook_attack_mask (square : Square) : Nat :=
  NORTH_RAY square ||| EAST_RAY square ||| SOUTH_RAY square ||| WEST_RAY square

/-- `magic.rs` `generate_bishop_attack_mask`: the plain union of the four
diagonal ray-table entries for the square. -/
def generate_bishop_attack_mask (square : Square) : Nat :=
  NORTH_EAST_RAY square ||| NORTH_WEST_RAY square
    ||| SOUTH_EAST_RAY square ||| SOUTH_WEST_RAY square

/-- The spec's claimed mask-construction rule (§4.3, claim C3): a ray with
its outermost square excluded. A stepped-to square is kept only when one
more step would still be on the board. -/
def rayTruncFrom : Nat → Int → Int → Int → Int → Nat
  | 0, _, _, _, _ => 0
  | fuel + 1, r, f, dr, df =>
    let r' := r + dr
    let f' := f + df
    if 0 ≤ r' ∧ r' < 8 ∧ 0 ≤ f' ∧ f' < 8 then
      if 0 ≤ r' + dr ∧ r' + dr < 8 ∧ 0 ≤ f' + df ∧ f' + df < 8 then
        2 ^ (r' * 8 + f').toNat ||| rayTruncFrom fuel r' f' dr df
      else 0
    else 0

/-- Claim C3's rook mask: union of the N/E/S/W rays from `s` with the
outermost square of each ray excluded (the spec's §4.3 wording). -/
def spec_rook_mask_claim (s : Square) : Nat :=
  rayTruncFrom 8 (rankOf s) (fileOf s) 1 0
    ||| rayTruncFrom 8 (rankOf s) (fileOf s) 0 1
    ||| rayTruncFrom 8 (rankOf s) (fileOf s) (-1) 0
    ||| rayTruncFrom 8 (rankOf s) (fileOf s) 0 (-1)

/-- Claim C3's bishop mask: union of the four diagonal rays from `s` with
the outermost square of each ray excluded. -/
def spec_bishop_mask_claim (s : Square) : Nat :=
  rayTruncFrom 8 (rankOf s) (fileOf s) 1 1
    ||| rayTruncFrom 8 (rankOf s) (fileOf s) 1 (-1)
    ||| rayTruncFrom 8 (rankOf s) (fileOf s) (-1) 1
    ||| rayTruncFrom 8 (rankOf s) (fileOf s) (-1) (-1)

/-- C3 counterexample: with the ray tables modelled from spec §4.2 (full
rays, running to the board edge), the rook relevant-blocker mask produced by
`generate_rook_attack_mask` on a1 is not the union of rays with each
outermost square excluded: the code's mask keeps the edge squares h1 and a8. -/
theorem c3_rook_mask_counterexample :
    generate_rook_attack_mask (0 : Fin 64) ≠ spec_rook_mask_claim (0 : Fin 64) := by
  decide

/-- C3, amended: `generate_rook_attack_mask s` is the union of the four full
orthogonal rays from `s`, including each ray's outermost square — that is,
exactly the squares sharing a rank or a file with `s`, other than `s`
itself; analogously `generate_bishop_attack_mask s` covers exactly the
squares sharing a diagonal or antidiagonal with `s`, other than `s`. -/
theorem c3_attack_masks_amended :
    ∀ s t : Fin 64,
      ((generate_rook_attack_mask s).testBit t.val
          ↔ (t ≠ s ∧ (rankOf t = rankOf s ∨ fileOf t = fileOf s)))
        ∧ ((generate_bishop_attack_mask s).testBit t.val
          ↔ (t ≠ s ∧ (rankOf t + fileOf t = rankOf s + fileOf s
                        ∨ rankOf t + fileOf s = rankOf s + fileOf t))) := by
  decide

/-- Named square constants (spec §3). -/
def Square.A1 : Square := ⟨0, by omega⟩
def Square.B1 : Square := ⟨1, by omega⟩
def Square.C1 : Square := ⟨2, by omega⟩
def Square.D1 : Square := ⟨3, by omega⟩
def Square.E1 : Square := ⟨4, by omega⟩
def Square.F1 : Square := ⟨5, by omega⟩
def Square.G1 : Square := ⟨6, by omega⟩
def Square.H1 : Square := ⟨7, by omega⟩
def Square.A8 : Square := ⟨56, by omega⟩
def Square.B8 : Square := ⟨57, by omega⟩
def Square.C8 : Square := ⟨58, by omega⟩
def Square.D8 : Square := ⟨59, by omega⟩
def Square.E8 : Square := ⟨60, by omega⟩
def Square.F8 : Square := ⟨61, by omega⟩
def Square.G8 : Square := ⟨62, by omega⟩
def Square.H8 : Square := ⟨63, by omega⟩

/-- The opponent of a color (the inline matches in the Rust sources). -/
def opposite : Color → Color
  | Color.White => Color.Black
  | Color.Black => Color.White

/-- Castling rights (`utils.rs` Casteling; spec §3 CastlingRights). -/
structure Casteling where
  white_kingside : Bool
  white_queenside : Bool
  black_kingside : Bool
  black_queenside : Bool
deriving DecidableEq, Repr

/-- `move_gen.rs` `Move`. `from`/`to` are reserved or awkward in Lean, so the
fields are `from_sq`/`to_sq`. -/
structure Move where
  piece_kind : Kind
  piece_color : Color
  from_sq : Square
  to_sq : Square
  casteling : Bool
  promoting_piece : Option Kind
  double_push : Bool
  en_passant : Bool
  captured_piece : Option Kind
deriving DecidableEq, Repr

/-- `board.rs` `Board`. In the source each piece field is a `Piece` struct
carrying `kind`, `color` and `bitboard`; the `kind`/`color` tags are fixed
per field by every constructor (`default`, `zero`, `from_fen`) and never
mutated, so the embedding keeps only the bitboards. -/
structure Board where
  to_move : Color
  white_pawn : Nat
  white_knight : Nat
  white_bishop : Nat
  white_rook : Nat
  white_queen : Nat
  white_king : Nat
  black_pawn : Nat
  black_knight : Nat
  black_bishop : Nat
  black_rook : Nat
  black_queen : Nat
  black_king : Nat
  casteling_rights : Casteling
  en_passant : Option Square
deriving DecidableEq, Repr

/-- The bitboard of the piece field selected by `(kind, color)` (the twelve-way
matches in `board.rs`). -/
def Board.pieceBB (B : Board) : Kind → Color → Nat
  | Kind.Pawn, Color.White => B.white_pawn
  | Kind.King, Color.White => B.white_king
  | Kind.Bishop, Color.White => B.white_bishop
  | Kind.Knight, Color.White => B.white_knight
  | Kind.Rook, Color.White => B.white_rook
  | Kind.Queen, Color.White => B.white_queen
  | Kind.Pawn, Color.Black => B.black_pawn
  | Kind.King, Color.Black => B.black_king
  | Kind.Bishop, Color.Black => B.black_bishop
  | Kind.Knight, Color.Black => B.black_knight
  | Kind.Rook, Color.Black => B.black_rook
  | Kind.Queen, Color.Black => B.black_queen

/-- Update the bitboard of the piece field selected by `(kind, color)`. -/
def Board.updPiece (B : Board) (k : Kind) (c : Color) (f : Nat → Nat) : Board :=
  match k, c with
  | Kind.Pawn, Color.White => { B with white_pawn := f B.white_pawn }
  | Kind.King, Color.White => { B with white_king := f B.white_king }
  | Kind.Bishop, Color.White => { B with white_bishop := f B.white_bishop }
  | Kind.Knight, Color.White => { B with white_knight := f B.white_knight }
  | Kind.Rook, Color.White => { B with white_rook := f B.white_rook }
  | Kind.Queen, Color.White => { B with white_queen := f B.white_queen }
  | Kind.Pawn, Color.Black => { B with black_pawn := f B.black_pawn }
  | Kind.King, Color.Black => { B with black_king := f B.black_king }
  | Kind.Bishop, Color.Black => { B with black_bishop := f B.black_bishop }
  | Kind.Knight, Color.Black => { B with black_knight := f B.black_knight }
  | Kind.Rook, Color.Black => { B with black_rook := f B.black_rook }
  | Kind.Queen, Color.Black => { B with black_queen := f B.black_queen }

/-- `board.rs` `all_white_pieces`. -/
def Board.all_white_pieces (B : Board) : Nat :=
  B.white_pawn ||| B.white_knight ||| B.white_bishop ||| B.white_rook
    ||| B.white_queen ||| B.white_king

/-- `board.rs` `all_black_pieces`. -/
def Board.all_black_pieces (B : Board) : Nat :=
  B.black_pawn ||| B.black_knight ||| B.black_bishop ||| B.black_rook
    ||| B.black_queen ||| B.black_king

/-- `board.rs` `all_pieces`. -/
def Board.all_pieces (B : Board) : Nat :=
  B.all_white_pieces ||| B.all_black_pieces

/-- `board.rs` `get_en_passant`. -/
def Board.get_en_passant (B : Board) : Nat :=
  match B.en_passant with
  | none => 0
  | some square => square_mask square

/-- `board.rs` `get_piece_kind`: probe the twelve bitboards in source order. -/
def Board.get_piece_kind (B : Board) (square : Square) : Option Kind :=
  let m := square_mask square
  if B.white_pawn &&& m ≠ 0 then some Kind.Pawn
  else if B.white_knight &&& m ≠ 0 then some Kind.Knight
  else if B.white_bishop &&& m ≠ 0 then some Kind.Bishop
  else if B.white_rook &&& m ≠ 0 then some Kind.Rook
  else if B.white_queen &&& m ≠ 0 then some Kind.Queen
  else if B.white_king &&& m ≠ 0 then some Kind.King
  else if B.black_pawn &&& m ≠ 0 then some Kind.Pawn
  else if B.black_knight &&& m ≠ 0 then some Kind.Knight
  else if B.black_bishop &&& m ≠ 0 then some Kind.Bishop
  else if B.black_rook &&& m ≠ 0 then some Kind.Rook
  else if B.black_queen &&& m ≠ 0 then some Kind.Queen
  else if B.black_king &&& m ≠ 0 then some Kind.King
  else none

/-- `board.rs` `get_piece`: like `get_piece_kind` but returning the
`(kind, color)` tags of the found `Piece`. -/
def Board.get_piece (B : Board) (square : Square) : Option (Kind × Color) :=
  let m := square_mask square
  if B.white_pawn &&& m ≠ 0 then some (Kind.Pawn, Color.White)
  else if B.white_knight &&& m ≠ 0 then some (Kind.Knight, Color.White)
  else if B.white_bishop &&& m ≠ 0 then some (Kind.Bishop, Color.White)
  else if B.white_rook &&& m ≠ 0 then some (Kind.Rook, Color.White)
  else if B.white_queen &&& m ≠ 0 then some (Kind.Queen, Color.White)
  else if B.white_king &&& m ≠ 0 then some (Kind.King, Color.White)
  else if B.black_pawn &&& m ≠ 0 then some (Kind.Pawn, Color.Black)
  else if B.black_knight &&& m ≠ 0 then some (Kind.Knight, Color.Black)
  else if B.black_bishop &&& m ≠ 0 then some (Kind.Bishop, Color.Black)
  else if B.black_rook &&& m ≠ 0 then some (Kind.Rook, Color.Black)
  else if B.black_queen &&& m ≠ 0 then some (Kind.Queen, Color.Black)
  else if B.black_king &&& m ≠ 0 then some (Kind.King, Color.Black)
  else none

/-- `board.rs` `Default for Board` with the initial-position bitboards from
`piece.rs` `create_initial`; all four castling rights available. -/
def Board.defaultBoard : Board where
  to_move := Color.White
  white_pawn := 0xFF00
  white_knight := 0x42
  white_bishop := 0x24
  white_rook := 0x81
  white_queen := 0x8
  white_king := 0x10
  black_pawn := 0x00FF000000000000
  black_knight := 0x4200000000000000
  black_bishop := 0x2400000000000000
  black_rook := 0x8100000000000000
  black_queen := 0x0800000000000000
  black_king := 0x1000000000000000
  casteling_rights := ⟨true, true, true, true⟩
  en_passant := none

/-- All twelve bitboards of the board fit in 64 bits (automatic for every
board built by the embedded constructors; stated as a hypothesis where
needed because the embedding stores bitboards as `Nat`). -/
def Board.wf64 (B : Board) : Prop :=
  B.white_pawn < U64 ∧ B.white_knight < U64 ∧ B.white_bishop < U64
    ∧ B.white_rook < U64 ∧ B.white_queen < U64 ∧ B.white_king < U64
    ∧ B.black_pawn < U64 ∧ B.black_knight < U64 ∧ B.black_bishop < U64
    ∧ B.black_rook < U64 ∧ B.black_queen < U64 ∧ B.black_king < U64

instance (B : Board) : Decidable B.wf64 := by
  unfold Board.wf64; infer_instance

/-- `board.rs` `do_move`, castling-rights block for the mover: a rook moving
off its corner or a king moving clears the corresponding rights. (The Rust
code reads `piece.kind`/`piece.color`, which always equal the move's
`piece_kind`/`piece_color` by the field-tag invariant.) -/
def Board.dmMoverRights (B : Board) (m : Move) : Board :=
  let B1 :=
    if m.piece_kind = Kind.Rook ∧ m.piece_color = Color.White then
      if m.from_sq = Square.H1 then
        { B with casteling_rights := { B.casteling_rights with white_kingside := false } }
      else if m.from_sq = Square.A1 then
        { B with casteling_rights := { B.casteling_rights with white_queenside := false } }
      else B
    else B
  let B2 :=
    if m.piece_kind = Kind.Rook ∧ m.piece_color = Color.Black then
      if m.from_sq = Square.H8 then
        { B1 with casteling_rights := { B1.casteling_rights with black_kingside := false } }
      else if m.from_sq = Square.A8 then
        { B1 with casteling_rights := { B1.casteling_rights with black_queenside := false } }
      else B1
    else B1
  if m.piece_kind = Kind.King then
    match m.piece_color with
    | Color.White =>
      { B2 with casteling_rights :=
          { B2.casteling_rights with white_kingside := false, white_queenside := false } }
    | Color.Black =>
      { B2 with casteling_rights :=
          { B2.casteling_rights with black_kingside := false, black_queenside := false } }
  else B2

/-- `board.rs` `do_move`, captures block, first half: clear the captured
piece's bit. The en-passant victim square is derived from the board's
`en_passant` field, whose `unwrap` is a possible panic. -/
def Board.dmCaptureClear (B : Board) (m : Move)
    (enemy_kind : Kind) (enemy_color : Color) : Option Board :=
  if m.en_passant then
    match B.en_passant with
    | none => none
    | some ep =>
      match enemy_color with
      | Color.White =>
        some (B.updPiece enemy_kind enemy_color
          (fun bb => bb &&& u64not (u64shl (square_mask ep) 8)))
      | Color.Black =>
        some (B.updPiece enemy_kind enemy_color
          (fun bb => bb &&& u64not (square_mask ep >>> 8)))
  else
    some (B.updPiece enemy_kind enemy_color
      (fun bb => bb &&& u64not (square_mask m.to_sq)))

/-- `board.rs` `do_move`, captures block, second half: clear the captured
color's castling right when a rook is captured on its corner square. -/
def Board.dmCaptureRights (B1 : Board) (m : Move)
    (enemy_kind : Kind) (enemy_color : Color) : Board :=
  let B2 :=
    if enemy_kind = Kind.Rook ∧ enemy_color = Color.White then
      let Ba :=
        if m.to_sq = Square.H1 then
          { B1 with casteling_rights := { B1.casteling_rights with white_kingside := false } }
        else B1
      if m.to_sq = Square.A1 then
        { Ba with casteling_rights := { Ba.casteling_rights with white_queenside := false } }
      else Ba
    else B1
  if enemy_kind = Kind.Rook ∧ enemy_color = Color.Black then
    let Bb :=
      if m.to_sq = Square.H8 then
        { B2 with casteling_rights := { B2.casteling_rights with black_kingside := false } }
      else B2
    if m.to_sq = Square.A8 then
      { Bb with casteling_rights := { Bb.casteling_rights with black_queenside := false } }
    else Bb
  else B2

/-- `board.rs` `do_move`, captures block: the two halves above in source
order; a non-capture move leaves the board unchanged here. -/
def Board.dmCapture (B : Board) (m : Move) : Option Board :=
  match m.captured_piece with
  | none => some B
  | some enemy_kind =>
    let enemy_color := opposite m.piece_color
    match B.dmCaptureClear m enemy_kind enemy_color with
    | none => none
    | some B1 => some (B1.dmCaptureRights m enemy_kind enemy_color)

/-- `board.rs` `do_move`, double-push block: set the en-passant target to the
midpoint of `from` and `to` after a double push, clear it otherwise. -/
def Board.dmEpSet (B : Board) (m : Move) : Option Board :=
  if m.double_push then
    match Square.from_usize ((m.to_sq.val + m.from_sq.val) / 2) with
    | none => none
    | some mid => some { B with en_passant := some mid }
  else some { B with en_passant := none }

/-- `board.rs` `do_move`, castling block: move the rook matching the king's
destination; any other destination on a castling move is a `panic!`. -/
def Board.dmCastleRook (B : Board) (m : Move) : Option Board :=
  if m.casteling then
    if m.to_sq = Square.G1 then
      some { B with white_rook :=
        (B.white_rook &&& u64not (square_mask Square.H1)) ||| square_mask Square.F1 }
    else if m.to_sq = Square.C1 then
      some { B with white_rook :=
        (B.white_rook &&& u64not (square_mask Square.A1)) ||| square_mask Square.D1 }
    else if m.to_sq = Square.G8 then
      some { B with black_rook :=
        (B.black_rook &&& u64not (square_mask Square.H8)) ||| square_mask Square.F8 }
    else if m.to_sq = Square.C8 then
      some { B with black_rook :=
        (B.black_rook &&& u64not (square_mask Square.A8)) ||| square_mask Square.D8 }
    else none
  else some B

/-- `board.rs` `do_move`, pure prefix: lift the mover off `from`, update the
mover's castling rights, and land on `to` unless the move promotes. -/
def Board.dmPre (B : Board) (m : Move) : Board :=
  let B1 := B.updPiece m.piece_kind m.piece_color
    (fun bb => bb &&& u64not (square_mask m.from_sq))
  let B2 := B1.dmMoverRights m
  if m.promoting_piece = none then
    B2.updPiece m.piece_kind m.piece_color (fun bb => bb ||| square_mask m.to_sq)
  else B2

/-- `board.rs` `do_move`, promotion block: make the promoted piece appear on
`to`. -/
def Board.dmPromo (B : Board) (m : Move) : Board :=
  match m.promoting_piece with
  | none => B
  | some piece_kind =>
    B.updPiece piece_kind m.piece_color (fun bb => bb ||| square_mask m.to_sq)

/-- `board.rs` `do_move`: the stages above in source order, then flip the
side to move; a panic in any stage aborts the whole application. -/
def Board.do_move (B : Board) (m : Move) : Option Board :=
  match (B.dmPre m).dmCapture m with
  | none => none
  | some B4 =>
    match (B4.dmPromo m).dmEpSet m with
    | none => none
    | some B6 =>
      match B6.dmCastleRook m with
      | none => none
      | some B7 => some { B7 with to_move := opposite B7.to_move }

@[simp] theorem Board.updPiece_casteling_rights (B : Board) (k : Kind) (c : Color)
    (f : Nat → Nat) : (B.updPiece k c f).casteling_rights = B.casteling_rights := by
  cases k <;> cases c <;> rfl

@[simp] theorem Board.updPiece_en_passant (B : Board) (k : Kind) (c : Color)
    (f : Nat → Nat) : (B.updPiece k c f).en_passant = B.en_passant := by
  cases k <;> cases c <;> rfl

@[simp] theorem Board.updPiece_to_move (B : Board) (k : Kind) (c : Color)
    (f : Nat → Nat) : (B.updPiece k c f).to_move = B.to_move := by
  cases k <;> cases c <;> rfl

theorem Board.dmCastleRook_ep (B B2 : Board) (m : Move)
    (h : B.dmCastleRook m = some B2) : B2.en_passant = B.en_passant := by
  unfold Board.dmCastleRook at h
  split_ifs at h <;> cases h <;> rfl

theorem Board.dmCastleRook_rights (B B2 : Board) (m : Move)
    (h : B.dmCastleRook m = some B2) : B2.casteling_rights = B.casteling_rights := by
  unfold Board.dmCastleRook at h
  split_ifs at h <;> cases h <;> rfl

theorem Board.dmEpSet_ep (B B2 : Board) (m : Move)
    (h : B.dmEpSet m = some B2) :
    (m.double_push = true →
        B2.en_passant = Square.from_usize ((m.to_sq.val + m.from_sq.val) / 2))
      ∧ (m.double_push = false → B2.en_passant = none) := by
  unfold Board.dmEpSet at h
  split_ifs at h with hd
  · refine ⟨fun _ => ?_, fun hf => by rw [hd] at hf; cases hf⟩
    cases hm : Square.from_usize ((m.to_sq.val + m.from_sq.val) / 2) with
    | none => rw [hm] at h; cases h
    | some mid => rw [hm] at h; cases h; rfl
  · refine ⟨fun ht => absurd ht hd, fun _ => ?_⟩
    cases h; rfl

theorem Board.dmEpSet_rights (B B2 : Board) (m : Move)
    (h : B.dmEpSet m = some B2) : B2.casteling_rights = B.casteling_rights := by
  unfold Board.dmEpSet at h
  split_ifs at h
  · cases hm : Square.from_usize ((m.to_sq.val + m.from_sq.val) / 2) with
    | none => rw [hm] at h; cases h
    | some mid => rw [hm] at h; cases h; rfl
  · cases h; rfl

@[simp] theorem Board.dmPromo_rights (B : Board) (m : Move) :
    (B.dmPromo m).casteling_rights = B.casteling_rights := by
  unfold Board.dmPromo
  cases m.promoting_piece <;> simp

/-- Decompose a successful `do_move` into its staged intermediate boards. -/
theorem Board.do_move_decomp (B B' : Board) (m : Move) (h : B.do_move m = some B') :
    ∃ B4 B6 B7, (B.dmPre m).dmCapture m = some B4
      ∧ (B4.dmPromo m).dmEpSet m = some B6
      ∧ B6.dmCastleRook m = some B7
      ∧ B' = { B7 with to_move := opposite B7.to_move } := by
  unfold Board.do_move at h
  split at h
  · cases h
  · rename_i B4 h4
    split at h
    · cases h
    · rename_i B6 h6
      split at h
      · cases h
      · rename_i B7 h7
        cases h
        exact ⟨B4, B6, B7, h4, h6, h7, rfl⟩

/-- C7: for every board `B` and move `m`, when `do_move` completes, the
resulting board's `en_passant` field is `Some` of the square midway between
`from` and `to` if the move is a double push, and `None` otherwise (any
previously set en-passant target is cleared by every non-double-push move). -/
theorem c7_en_passant_after_do_move (B B' : Board) (m : Move)
    (h : B.do_move m = some B') :
    (m.double_push = true →
        B'.en_passant = Square.from_usize ((m.to_sq.val + m.from_sq.val) / 2))
      ∧ (m.double_push = false → B'.en_passant = none) := by
  obtain ⟨B4, B6, B7, h4, h6, h7, hB'⟩ := Board.do_move_decomp B B' m h
  have hep : B'.en_passant = B6.en_passant := by
    rw [hB']
    exact Board.dmCastleRook_ep B6 B7 m h7
  have := Board.dmEpSet_ep (B4.dmPromo m) B6 m h6
  exact ⟨fun hd => by rw [hep]; exact this.1 hd, fun hd => by rw [hep]; exact this.2 hd⟩

/-- The double pawn push e2–e4, used to witness C7. -/
def mvE2E4 : Move where
  piece_kind := Kind.Pawn
  piece_color := Color.White
  from_sq := 12
  to_sq := 28
  casteling := false
  promoting_piece := none
  double_push := true
  en_passant := false
  captured_piece := none

theorem c7_en_passant_witness :
    ∃ B', Board.defaultBoard.do_move mvE2E4 = some B'
      ∧ B'.en_passant = Square.from_usize 20 := by
  refine ⟨(Board.defaultBoard.do_move mvE2E4).getD Board.defaultBoard, by decide, ?_⟩
  exact (c7_en_passant_after_do_move Board.defaultBoard _ mvE2E4 (by decide)).1 rfl

theorem Board.dmCaptureClear_rights (B B1 : Board) (m : Move) (ek : Kind) (ec : Color)
    (h : B.dmCaptureClear m ek ec = some B1) :
    B1.casteling_rights = B.casteling_rights := by
  unfold Board.dmCaptureClear at h
  split_ifs at h
  · cases hep : B.en_passant with
    | none => rw [hep] at h; cases h
    | some ep => rw [hep] at h; cases ec <;> (cases h; simp)
  · cases h; simp

theorem Board.dmMoverRights_white_mover (B : Board) (m : Move)
    (hc : m.piece_color = Color.White) :
    (B.dmMoverRights m).casteling_rights.black_kingside
        = B.casteling_rights.black_kingside
      ∧ (B.dmMoverRights m).casteling_rights.black_queenside
        = B.casteling_rights.black_queenside := by
  unfold Board.dmMoverRights
  rw [hc]
  split_ifs <;> simp_all

theorem Board.dmMoverRights_black_mover (B : Board) (m : Move)
    (hc : m.piece_color = Color.Black) :
    (B.dmMoverRights m).casteling_rights.white_kingside
        = B.casteling_rights.white_kingside
      ∧ (B.dmMoverRights m).casteling_rights.white_queenside
        = B.casteling_rights.white_queenside := by
  unfold Board.dmMoverRights
  rw [hc]
  split_ifs <;> simp_all

theorem Board.dmPre_black_rights (B : Board) (m : Move)
    (hc : m.piece_color = Color.White) :
    (B.dmPre m).casteling_rights.black_kingside = B.casteling_rights.black_kingside
      ∧ (B.dmPre m).casteling_rights.black_queenside
        = B.casteling_rights.black_queenside := by
  have hmv := Board.dmMoverRights_white_mover
    (B.updPiece m.piece_kind m.piece_color (fun bb => bb &&& u64not (square_mask m.from_sq)))
    m hc
  unfold Board.dmPre
  split_ifs <;> simp_all

theorem Board.dmPre_white_rights (B : Board) (m : Move)
    (hc : m.piece_color = Color.Black) :
    (B.dmPre m).casteling_rights.white_kingside = B.casteling_rights.white_kingside
      ∧ (B.dmPre m).casteling_rights.white_queenside
        = B.casteling_rights.white_queenside := by
  have hmv := Board.dmMoverRights_black_mover
    (B.updPiece m.piece_kind m.piece_color (fun bb => bb &&& u64not (square_mask m.from_sq)))
    m hc
  unfold Board.dmPre
  split_ifs <;> simp_all

theorem Board.dmCapture_some (B B4 : Board) (m : Move) (ek : Kind)
    (h : B.dmCapture m = some B4) (hc : m.captured_piece = some ek) :
    ∃ B1, B.dmCaptureClear m ek (opposite m.piece_color) = some B1
      ∧ B4 = B1.dmCaptureRights m ek (opposite m.piece_color) := by
  unfold Board.dmCapture at h
  split at h
  · rename_i heq
    rw [hc] at heq
    cases heq
  · rename_i ek2 heq
    rw [hc] at heq
    injection heq with heq
    subst heq
    dsimp only at h
    split at h
    · cases h
    · rename_i B1 hclr
      cases h
      exact ⟨B1, hclr, rfl⟩

/-- C6: for every board and move capturing a rook on a corner of the
captured color's back rank, `do_move` clears exactly the matching castling
right of the captured color: an A-file corner capture clears that color's
queenside right and an H-file corner capture clears the kingside right,
while the captured color's other right is untouched. -/
theorem c6_rook_capture_castling_rights (B B' : Board) (m : Move)
    (h : B.do_move m = some B') (hc : m.captured_piece = some Kind.Rook) :
    (m.piece_color = Color.White → m.to_sq = Square.H8 →
        B'.casteling_rights.black_kingside = false
          ∧ B'.casteling_rights.black_queenside = B.casteling_rights.black_queenside)
      ∧ (m.piece_color = Color.White → m.to_sq = Square.A8 →
        B'.casteling_rights.black_queenside = false
          ∧ B'.casteling_rights.black_kingside = B.casteling_rights.black_kingside)
      ∧ (m.piece_color = Color.Black → m.to_sq = Square.H1 →
        B'.casteling_rights.white_kingside = false
          ∧ B'.casteling_rights.white_queenside = B.casteling_rights.white_queenside)
      ∧ (m.piece_color = Color.Black → m.to_sq = Square.A1 →
        B'.casteling_rights.white_queenside = false
          ∧ B'.casteling_rights.white_kingside = B.casteling_rights.white_kingside) := by
  obtain ⟨B4, B6, B7, h4, h6, h7, hB'⟩ := Board.do_move_decomp B B' m h
  have hr : B'.casteling_rights = B4.casteling_rights := by
    rw [hB']
    have e1 := Board.dmCastleRook_rights B6 B7 m h7
    have e2 := Board.dmEpSet_rights (B4.dmPromo m) B6 m h6
    simp only [e1, e2, Board.dmPromo_rights]
  obtain ⟨B1, hclr, hB4⟩ := Board.dmCapture_some (B.dmPre m) B4 m Kind.Rook h4 hc
  have hcr := Board.dmCaptureClear_rights (B.dmPre m) B1 m Kind.Rook _ hclr
  subst hB4
  rw [hr]
  clear h4 h6 h7 hB' h hr hc
  refine ⟨?_, ?_, ?_, ?_⟩ <;> intro hcol hto
  · have hb := Board.dmPre_black_rights B m hcol
    rw [hcol]
    unfold Board.dmCaptureRights
    rw [hto]
    constructor
    · simp [opposite, Square.H1, Square.A1, Square.H8, Square.A8]
    · simp [opposite, Square.H1, Square.A1, Square.H8, Square.A8, hcr, hb.2]
  · have hb := Board.dmPre_black_rights B m hcol
    rw [hcol]
    unfold Board.dmCaptureRights
    rw [hto]
    constructor
    · simp [opposite, Square.H1, Square.A1, Square.H8, Square.A8]
    · simp [opposite, Square.H1, Square.A1, Square.H8, Square.A8, hcr, hb.1]
  · have hb := Board.dmPre_white_rights B m hcol
    rw [hcol]
    unfold Board.dmCaptureRights
    rw [hto]
    constructor
    · simp [opposite, Square.H1, Square.A1, Square.H8, Square.A8]
    · simp [opposite, Square.H1, Square.A1, Square.H8, Square.A8, hcr, hb.2]
  · have hb := Board.dmPre_white_rights B m hcol
    rw [hcol]
    unfold Board.dmCaptureRights
    rw [hto]
    constructor
    · simp [opposite, Square.H1, Square.A1, Square.H8, Square.A8]
    · simp [opposite, Square.H1, Square.A1, Square.H8, Square.A8, hcr, hb.1]

/-- Witness position for C6: a white rook on h1, a black rook on h8,
all castling rights available, White to move. -/
def bC6 : Board where
  to_move := Color.White
  white_pawn := 0
  white_knight := 0
  white_bishop := 0
  white_rook := 0x80
  white_queen := 0
  white_king := 0
  black_pawn := 0
  black_knight := 0
  black_bishop := 0
  black_rook := 0x8000000000000000
  black_queen := 0
  black_king := 0
  casteling_rights := ⟨true, true, true, true⟩
  en_passant := none

/-- Witness move for C6: the white rook captures the black rook on h8. -/
def mC6 : Move where
  piece_kind := Kind.Rook
  piece_color := Color.White
  from_sq := Square.H1
  to_sq := Square.H8
  casteling := false
  promoting_piece := none
  double_push := false
  en_passant := false
  captured_piece := some Kind.Rook

theorem c6_rook_capture_witness :
    ∃ B', bC6.do_move mC6 = some B'
      ∧ B'.casteling_rights.black_kingside = false
      ∧ B'.casteling_rights.black_queenside = bC6.casteling_rights.black_queenside := by
  refine ⟨(bC6.do_move mC6).getD bC6, by decide, ?_, ?_⟩
  · exact ((c6_rook_capture_castling_rights bC6 _ mC6 (by decide) (by decide)).1 rfl rfl).1
  · exact ((c6_rook_capture_castling_rights bC6 _ mC6 (by decide) (by decide)).1 rfl rfl).2

/-- `move_gen.rs` `gen_knight_moves`: the eight knight-jump shifts of the
given knight bitboard, each pre-masked against file wraparound. -/
def MoveGen.gen_knight_moves (knight_loc : Nat) : Nat :=
  let knight_clip_file_h := knight_loc &&& CLEAR_FILE 7
  let knight_clip_file_gh := knight_loc &&& CLEAR_FILE 6 &&& CLEAR_FILE 7
  let knight_clip_file_a := knight_loc &&& CLEAR_FILE 0
  let knight_clip_file_ab := knight_loc &&& CLEAR_FILE 1 &&& CLEAR_FILE 0
  let spot1 := u64shl knight_clip_file_h 17
  let spot2 := u64shl knight_clip_file_gh 10
  let spot3 := knight_clip_file_gh >>> 6
  let spot4 := knight_clip_file_h >>> 15
  let spot5 := knight_clip_file_a >>> 17
  let spot6 := knight_clip_file_ab >>> 10
  let spot7 := u64shl knight_clip_file_ab 6
  let spot8 := u64shl knight_clip_file_a 15
  spot1 ||| spot2 ||| spot3 ||| spot4 ||| spot5 ||| spot6 ||| spot7 ||| spot8

/-- Claim C4 as stated: the knight target set with the shift-by-17 copy
pre-masked by `CLEAR_FILE[a]`, the shift-by-10 copy by
`CLEAR_FILE[a] & CLEAR_FILE[b]`, and symmetrically on the h side (the
shift-by-15 and shift-by-6 copies keep the wrap-free masks the spec's
general rule demands). -/
def spec_knight_targets_claim (K : Nat) : Nat :=
  u64shl (K &&& CLEAR_FILE 0) 17
    ||| u64shl (K &&& CLEAR_FILE 1 &&& CLEAR_FILE 0) 10
    ||| ((K &&& CLEAR_FILE 6 &&& CLEAR_FILE 7) >>> 6)
    ||| ((K &&& CLEAR_FILE 0) >>> 15)
    ||| ((K &&& CLEAR_FILE 7) >>> 17)
    ||| ((K &&& CLEAR_FILE 6 &&& CLEAR_FILE 7) >>> 10)
    ||| u64shl (K &&& CLEAR_FILE 1 &&& CLEAR_FILE 0) 6
    ||| u64shl (K &&& CLEAR_FILE 0) 15

/-- Claim C4, amended: the shift-by-17 copy is pre-masked by
`CLEAR_FILE[h]`, the shift-by-10 copy by `CLEAR_FILE[g] & CLEAR_FILE[h]`,
the shift-by-15 copy by `CLEAR_FILE[a]`, the shift-by-6 copy by
`CLEAR_FILE[a] & CLEAR_FILE[b]`, and symmetrically for the right shifts. -/
def spec_knight_targets_amended (K : Nat) : Nat :=
  u64shl (K &&& CLEAR_FILE 7) 17
    ||| u64shl (K &&& CLEAR_FILE 6 &&& CLEAR_FILE 7) 10
    ||| ((K &&& CLEAR_FILE 6 &&& CLEAR_FILE 7) >>> 6)
    ||| ((K &&& CLEAR_FILE 7) >>> 15)
    ||| ((K &&& CLEAR_FILE 0) >>> 17)
    ||| ((K &&& CLEAR_FILE 1 &&& CLEAR_FILE 0) >>> 10)
    ||| u64shl (K &&& CLEAR_FILE 1 &&& CLEAR_FILE 0) 6
    ||| u64shl (K &&& CLEAR_FILE 0) 15

/-- C4 counterexample: the claim's mask association is wrong for a knight on
a1: the claim's formula (shift-17 pre-masked with `CLEAR_FILE[a]`) loses the
jump a1→b3 that the code produces with its `CLEAR_FILE[h]` pre-mask. -/
theorem c4_knight_mask_counterexample :
    spec_knight_targets_claim 1 ≠ MoveGen.gen_knight_moves 1 := by
  decide

theorem nat_shiftRight_le (x n : Nat) : x >>> n ≤ x := by
  rw [Nat.shiftRight_eq_div_pow]
  exact Nat.div_le_self _ _

theorem gen_knight_moves_lt (K : Nat) : MoveGen.gen_knight_moves K < U64 := by
  have hC7 : CLEAR_FILE 7 < U64 := by decide
  have hC0 : CLEAR_FILE 0 < U64 := by decide
  have h1 : u64shl (K &&& CLEAR_FILE 7) 17 < U64 :=
    Nat.mod_lt _ (by decide)
  have h2 : u64shl (K &&& CLEAR_FILE 6 &&& CLEAR_FILE 7) 10 < U64 :=
    Nat.mod_lt _ (by decide)
  have h7 : u64shl (K &&& CLEAR_FILE 1 &&& CLEAR_FILE 0) 6 < U64 :=
    Nat.mod_lt _ (by decide)
  have h8 : u64shl (K &&& CLEAR_FILE 0) 15 < U64 :=
    Nat.mod_lt _ (by decide)
  have h3 : (K &&& CLEAR_FILE 6 &&& CLEAR_FILE 7) >>> 6 < U64 :=
    Nat.lt_of_le_of_lt (Nat.le_trans (nat_shiftRight_le _ _) Nat.and_le_right) hC7
  have h4 : (K &&& CLEAR_FILE 7) >>> 15 < U64 :=
    Nat.lt_of_le_of_lt (Nat.le_trans (nat_shiftRight_le _ _) Nat.and_le_right) hC7
  have h5 : (K &&& CLEAR_FILE 0) >>> 17 < U64 :=
    Nat.lt_of_le_of_lt (Nat.le_trans (nat_shiftRight_le _ _) Nat.and_le_right) hC0
  have h6 : (K &&& CLEAR_FILE 1 &&& CLEAR_FILE 0) >>> 10 < U64 :=
    Nat.lt_of_le_of_lt (Nat.le_trans (nat_shiftRight_le _ _) Nat.and_le_right) hC0
  unfold MoveGen.gen_knight_moves
  exact Nat.or_lt_two_pow (Nat.or_lt_two_pow (Nat.or_lt_two_pow (Nat.or_lt_two_pow
    (Nat.or_lt_two_pow (Nat.or_lt_two_pow (Nat.or_lt_two_pow h1 h2) h3) h4) h5) h6) h7) h8

/-- C4, amended: the knight target bitboard equals the corrected spec
formula (the a/h pre-mask association swapped relative to the claim), and
the pseudo-legal destination split in `gen_white_knight_moves` — quiet
targets `moved & empty` together with captures `moved & enemy` — is exactly
the target set intersected with the complement of the friendly occupancy,
on any board whose white and black occupancies are disjoint 64-bit sets. -/
theorem c4_knight_moves_amended :
    (∀ K : Nat, spec_knight_targets_amended K = MoveGen.gen_knight_moves K)
      ∧ (∀ (B : Board) (K : Nat),
          B.all_white_pieces &&& B.all_black_pieces = 0 →
          B.all_white_pieces < U64 → B.all_black_pieces < U64 →
          (MoveGen.gen_knight_moves K &&& u64not B.all_pieces)
              ||| (MoveGen.gen_knight_moves K &&& B.all_black_pieces)
            = MoveGen.gen_knight_moves K &&& u64not B.all_white_pieces) := by
  constructor
  · intro K
    rfl
  · intro B K hdis hw hb
    apply Nat.eq_of_testBit_eq
    intro i
    have hdi : (B.all_white_pieces.testBit i && B.all_black_pieces.testBit i) = false := by
      have h2 := congrArg (fun x => Nat.testBit x i) hdis
      simp only [Nat.testBit_and, Nat.zero_testBit] at h2
      exact h2
    by_cases hi : i < 64
    · have hdt : decide (i < 64) = true := decide_eq_true hi
      simp only [Nat.testBit_or, Nat.testBit_and, u64not, U64, Nat.testBit_xor,
        Nat.testBit_two_pow_sub_one, hdt, Board.all_pieces, Nat.testBit_or]
      revert hdi
      cases (MoveGen.gen_knight_moves K).testBit i <;>
        cases B.all_white_pieces.testBit i <;>
        cases B.all_black_pieces.testBit i <;> simp
    · have hgi : (MoveGen.gen_knight_moves K).testBit i = false :=
        Nat.testBit_eq_false_of_lt (Nat.lt_of_lt_of_le (gen_knight_moves_lt K)
          (Nat.pow_le_pow_right (by omega) (by omega)))
      have hwi : B.all_white_pieces.testBit i = false :=
        Nat.testBit_eq_false_of_lt (Nat.lt_of_lt_of_le hw
          (Nat.pow_le_pow_right (by omega) (by omega)))
      have hbi : B.all_black_pieces.testBit i = false :=
        Nat.testBit_eq_false_of_lt (Nat.lt_of_lt_of_le hb
          (Nat.pow_le_pow_right (by omega) (by omega)))
      simp [Nat.testBit_or, Nat.testBit_and, hgi, hwi, hbi]

theorem c4_knight_moves_witness :
    (MoveGen.gen_knight_moves 0x42 &&& u64not Board.defaultBoard.all_pieces)
        ||| (MoveGen.gen_knight_moves 0x42 &&& Board.defaultBoard.all_black_pieces)
      = MoveGen.gen_knight_moves 0x42 &&& u64not Board.defaultBoard.all_white_pieces :=
  c4_knight_moves_amended.2 Board.defaultBoard 0x42 (by decide) (by decide) (by decide)

/-- `magic.rs` `MagicEntry`. The `FxHashMap<u16, Bitboard>` is embedded as
an association list with insert-if-absent semantics (keys are unique by
construction, so lookup order is irrelevant). -/
structure MagicEntry where
  attack_set : List (Nat × Nat)
  default_attack : Nat
  magic : Nat
  shift : Nat
deriving DecidableEq, Repr

/-- Hash-map lookup on the association list. -/
def mapGet : List (Nat × Nat) → Nat → Option Nat
  | [], _ => none
  | (k', v) :: rest, k => if k' = k then some v else mapGet rest k

/-- `magic.rs` `enumerate_blockers`, first loop: the indices of the set bits
of the mask, in increasing order. -/
def enumerate_blockers_bits (mask : Nat) : List Nat :=
  (List.range 64).filter (fun i => (mask >>> i) &&& 1 != 0)

/-- `magic.rs` `enumerate_blockers`, inner loop for one subset index `i`:
OR together `1 << bits[j]` for every set bit `j` of `i` (expressed by
consuming `i` bit by bit alongside the list). -/
def blockerOfIndex : List Nat → Nat → Nat
  | [], _ => 0
  | bit :: rest, i => (if i &&& 1 = 1 then 2 ^ bit else 0) ||| blockerOfIndex rest (i >>> 1)

/-- `magic.rs` `enumerate_blockers`: all `2^n` subsets of the mask's set
bits. -/
def enumerate_blockers (mask : Nat) : List Nat :=
  let bits := enumerate_blockers_bits mask
  (List.range (2 ^ bits.length)).map (blockerOfIndex bits)

/-- `magic.rs` `compute_attack`, direction table: the `todo!()` for
non-sliding kinds is a panic. -/
def slidingDirections : Kind → Option (List (Int × Int))
  | Kind.Rook => some [(-1, 0), (1, 0), (0, -1), (0, 1)]
  | Kind.Bishop => some [(-1, -1), (-1, 1), (1, -1), (1, 1)]
  | _ => none

/-- `magic.rs` `compute_attack`, inner while loop for one direction: step
until the edge, adding each reached square; a blocker square is added and
then the ray stops. -/
def attackWalk (blockers : Nat) : Nat → Int → Int → Int → Int → Nat
  | 0, _, _, _, _ => 0
  | fuel + 1, r, f, dr, df =>
    let r' := r + dr
    let f' := f + df
    if 0 ≤ r' ∧ r' < 8 ∧ 0 ≤ f' ∧ f' < 8 then
      let sq := (r' * 8 + f').toNat
      2 ^ sq |||
        (if (blockers >>> sq) &&& 1 ≠ 0 then 0 else attackWalk blockers fuel r' f' dr df)
    else 0

/-- `magic.rs` `compute_attack`: OR of the four ray walks. -/
def compute_attack (square : Square) (blockers : Nat) (kind : Kind) : Option Nat :=
  match slidingDirections kind with
  | none => none
  | some dirs =>
    some (dirs.foldl
      (fun attacks d =>
        attacks ||| attackWalk blockers 8 (rankOf square) (fileOf square) d.1 d.2)
      0)

/-- `u64::count_ones`, for operands below `2^64`. -/
def popcount (n : Nat) : Nat :=
  ((List.range 64).filter (fun i => n.testBit i)).length

/-- `magic.rs` `MagicEntry::find_attack`: multiply-shift hash, then table
lookup with the no-blocker attack as default. `u16::try_from(..).unwrap()`
panics when the index does not fit 16 bits. -/
def MagicEntry.find_attack (e : MagicEntry) (blockers : Nat) : Option Nat :=
  let magic_index := wrapping_mul blockers e.magic >>> e.shift
  if magic_index < 65536 then
    some ((mapGet e.attack_set magic_index).getD e.default_attack)
  else none

/-- The relevant-blocker mask selected by the piece kind (the `match kind`
at the top of `MagicEntry::generate`; `todo!()` for other kinds). -/
def sliding_mask (kind : Kind) (square : Square) : Option Nat :=
  match kind with
  | Kind.Rook => some (generate_rook_attack_mask square)
  | Kind.Bishop => some (generate_bishop_attack_mask square)
  | _ => none

/-- `magic.rs` `MagicEntry::generate`, table-filling loop for one candidate
magic: hash every blocker subset and record its reference attack; a
collision with a different attack aborts this candidate (`none`), a
collision with the same attack is allowed. -/
def buildAttackSet (square : Square) (kind : Kind) (magic shift : Nat) :
    List Nat → List (Nat × Nat) → Option (List (Nat × Nat))
  | [], acc => some acc
  | blockers :: rest, acc =>
    let magic_index := wrapping_mul blockers magic >>> shift
    if magic_index < 65536 then
      match compute_attack square blockers kind with
      | none => none
      | some attack =>
        match mapGet acc magic_index with
        | some existing =>
          if existing = attack then buildAttackSet square kind magic shift rest acc
          else none
        | none => buildAttackSet square kind magic shift rest ((magic_index, attack) :: acc)
    else none

/-- `magic.rs` `MagicEntry::generate`, body of the retry loop for one
candidate magic number: the entries `MagicEntry::generate` can return are
exactly the successful results of this function over all candidate magics
(the loop draws random candidates until one succeeds). -/
def MagicEntry.generate_candidate (square : Square) (kind : Kind) (magic : Nat) :
    Option MagicEntry :=
  match sliding_mask kind square with
  | none => none
  | some mask =>
    let permutations := enumerate_blockers mask
    let shift := 64 - popcount mask
    match buildAttackSet square kind magic shift permutations [] with
    | none => none
    | some attack_set =>
      match compute_attack square 0 kind with
      | none => none
      | some default_attack =>
        some { attack_set := attack_set, default_attack := default_attack,
               magic := magic, shift := shift }

theorem shr_and_one (m i : Nat) : ((m >>> i) &&& 1 != 0) = m.testBit i := by
  unfold Nat.testBit
  rw [Nat.and_one_is_mod, Nat.one_and_eq_mod_two]

theorem blockerOfIndex_exists :
    ∀ (bits : List Nat) (b : Nat), (∀ j, b.testBit j = true → j ∈ bits) →
      ∃ i, i < 2 ^ bits.length ∧ blockerOfIndex bits i = b := by
  intro bits
  induction bits with
  | nil =>
    intro b hb
    have hz : b = 0 := by
      apply Nat.zero_of_testBit_eq_false
      intro i
      cases hbi : b.testBit i with
      | false => rfl
      | true => exact absurd (hb i hbi) (List.not_mem_nil i)
    exact ⟨0, by simp, by simp [hz, blockerOfIndex]⟩
  | cons bit rest ih =>
    intro b hb
    by_cases hbit : b.testBit bit = true
    · have hb'j : ∀ j, (b ^^^ 2 ^ bit).testBit j = true → j ∈ rest := by
        intro j hj
        have hjne : bit ≠ j := by
          intro he
          subst he
          simp [Nat.testBit_xor, Nat.testBit_two_pow_self, hbit] at hj
        have hbj : b.testBit j = true := by
          simpa [Nat.testBit_xor, Nat.testBit_two_pow, hjne] using hj
        rcases List.mem_cons.mp (hb j hbj) with rfl | h
        · exact absurd rfl hjne
        · exact h
      obtain ⟨i', hi', hval⟩ := ih (b ^^^ 2 ^ bit) hb'j
      refine ⟨2 * i' + 1, ?_, ?_⟩
      · have : 2 ^ (bit :: rest).length = 2 * 2 ^ rest.length := by
          simp [List.length_cons, Nat.pow_succ]; ring
        omega
      · show (if (2 * i' + 1) &&& 1 = 1 then 2 ^ bit else 0)
            ||| blockerOfIndex rest ((2 * i' + 1) >>> 1) = b
        have h1 : (2 * i' + 1) &&& 1 = 1 := by rw [Nat.and_one_is_mod]; omega
        have h2 : (2 * i' + 1) >>> 1 = i' := by rw [Nat.shiftRight_eq_div_pow]; omega
        rw [h1, h2, hval]
        simp only [if_pos]
        apply Nat.eq_of_testBit_eq
        intro j
        by_cases hj : bit = j
        · subst hj
          simp [Nat.testBit_or, Nat.testBit_xor, Nat.testBit_two_pow_self, hbit]
        · simp [Nat.testBit_or, Nat.testBit_xor, Nat.testBit_two_pow, hj]
    · have hb'j : ∀ j, b.testBit j = true → j ∈ rest := by
        intro j hj
        rcases List.mem_cons.mp (hb j hj) with rfl | h
        · exact absurd hj hbit
        · exact h
      obtain ⟨i', hi', hval⟩ := ih b hb'j
      refine ⟨2 * i', ?_, ?_⟩
      · have : 2 ^ (bit :: rest).length = 2 * 2 ^ rest.length := by
          simp [List.length_cons, Nat.pow_succ]; ring
        omega
      · show (if (2 * i') &&& 1 = 1 then 2 ^ bit else 0)
            ||| blockerOfIndex rest ((2 * i') >>> 1) = b
        have h1 : (2 * i') &&& 1 = 0 := by rw [Nat.and_one_is_mod]; omega
        have h2 : (2 * i') >>> 1 = i' := by rw [Nat.shiftRight_eq_div_pow]; omega
        rw [h1, h2, hval]
        simp

theorem mem_enumerate_blockers {mask b : Nat} (hmask : mask < U64) (hb : b &&& mask = b) :
    b ∈ enumerate_blockers mask := by
  have hsub : ∀ j, b.testBit j = true → j ∈ enumerate_blockers_bits mask := by
    intro j hj
    have hmj : mask.testBit j = true := by
      have h2 := congrArg (fun x => Nat.testBit x j) hb
      simp only [Nat.testBit_and, hj, Bool.true_and] at h2
      exact h2
    have hj64 : j < 64 := by
      by_contra hge
      have : mask.testBit j = false :=
        Nat.testBit_eq_false_of_lt
          (Nat.lt_of_lt_of_le hmask (Nat.pow_le_pow_right (by omega) (by omega)))
      simp [this] at hmj
    exact List.mem_filter.mpr ⟨List.mem_range.mpr hj64, by rw [shr_and_one]; exact hmj⟩
  obtain ⟨i, hi, hval⟩ := blockerOfIndex_exists (enumerate_blockers_bits mask) b hsub
  unfold enumerate_blockers
  exact List.mem_map.mpr ⟨i, List.mem_range.mpr hi, hval⟩

theorem buildAttackSet_spec (square : Square) (kind : Kind) (magic shift : Nat) :
    ∀ (L : List Nat) (acc final : List (Nat × Nat)),
      buildAttackSet square kind magic shift L acc = some final →
      ((∀ k v, mapGet acc k = some v → mapGet final k = some v)
        ∧ ∀ b ∈ L, wrapping_mul b magic >>> shift < 65536
            ∧ ∃ att, compute_attack square b kind = some att
              ∧ mapGet final (wrapping_mul b magic >>> shift) = some att) := by
  intro L
  induction L with
  | nil =>
    intro acc final h
    cases h
    exact ⟨fun k v hv => hv, by simp⟩
  | cons blockers rest ih =>
    intro acc final h
    unfold buildAttackSet at h
    dsimp only at h
    split_ifs at h with hguard
    · cases hca : compute_attack square blockers kind with
      | none => rw [hca] at h; cases h
      | some attack =>
        rw [hca] at h
        dsimp only at h
        cases hmg : mapGet acc (wrapping_mul blockers magic >>> shift) with
        | some existing =>
          rw [hmg] at h
          dsimp only at h
          split_ifs at h with he
          · obtain ⟨pres, hrest⟩ := ih acc final h
            refine ⟨pres, ?_⟩
            intro b hbmem
            rcases List.mem_cons.mp hbmem with rfl | hbr
            · exact ⟨hguard, attack, hca, pres _ _ (he ▸ hmg)⟩
            · exact hrest b hbr
        | none =>
          rw [hmg] at h
          dsimp only at h
          obtain ⟨pres, hrest⟩ :=
            ih ((wrapping_mul blockers magic >>> shift, attack) :: acc) final h
          have hins : mapGet ((wrapping_mul blockers magic >>> shift, attack) :: acc)
              (wrapping_mul blockers magic >>> shift) = some attack := by
            simp [mapGet]
          refine ⟨?_, ?_⟩
          · intro k v hv
            apply pres
            show mapGet ((wrapping_mul blockers magic >>> shift, attack) :: acc) k = some v
            simp only [mapGet]
            split_ifs with hk
            · rw [← hk] at hv
              rw [hv] at hmg
              cases hmg
            · exact hv
          · intro b hbmem
            rcases List.mem_cons.mp hbmem with rfl | hbr
            · exact ⟨hguard, attack, hca, pres _ _ hins⟩
            · exact hrest b hbr

theorem sliding_masks_lt :
    ∀ s : Fin 64, generate_rook_attack_mask s < U64 ∧ generate_bishop_attack_mask s < U64 := by
  decide

/-- C2: every MagicEntry that a successful candidate iteration of
`MagicEntry::generate` can return answers `find_attack` with the reference
ray-walk attack `compute_attack` on every blocker subset of the square's
relevant mask, and hash collisions happen only between blocker sets with
equal reference attacks. -/
theorem c2_magic_entry_correct (square : Square) (kind : Kind) (magic : Nat)
    (e : MagicEntry) (mask : Nat)
    (hmask : sliding_mask kind square = some mask)
    (hgen : MagicEntry.generate_candidate square kind magic = some e)
    (b : Nat) (hb : b &&& mask = b) :
    e.find_attack b = compute_attack square b kind
      ∧ ∀ b2 : Nat, b2 &&& mask = b2 →
          wrapping_mul b2 e.magic >>> e.shift = wrapping_mul b e.magic >>> e.shift →
          compute_attack square b2 kind = compute_attack square b kind := by
  unfold MagicEntry.generate_candidate at hgen
  rw [hmask] at hgen
  dsimp only at hgen
  cases hbuild : buildAttackSet square kind magic (64 - popcount mask)
      (enumerate_blockers mask) [] with
  | none => rw [hbuild] at hgen; cases hgen
  | some aset =>
    rw [hbuild] at hgen
    cases hd : compute_attack square 0 kind with
    | none => rw [hd] at hgen; cases hgen
    | some dft =>
      rw [hd] at hgen
      cases hgen
      have hmlt : mask < U64 := by
        cases kind <;> simp only [sliding_mask] at hmask <;> try cases hmask
        · exact (sliding_masks_lt square).2
        · exact (sliding_masks_lt square).1
      have hspec := (buildAttackSet_spec square kind magic (64 - popcount mask)
        (enumerate_blockers mask) [] aset hbuild).2
      obtain ⟨hidx, att, hca, hget⟩ := hspec b (mem_enumerate_blockers hmlt hb)
      constructor
      · unfold MagicEntry.find_attack
        dsimp only
        rw [if_pos hidx, hget, hca]
        rfl
      · intro b2 hb2 hidx2
        obtain ⟨hidx2', att2, hca2, hget2⟩ := hspec b2 (mem_enumerate_blockers hmlt hb2)
        dsimp only at hidx2
        rw [hidx2] at hget2
        rw [hget] at hget2
        rw [hca, hca2]
        cases hget2
        rfl

/-- A concrete magic number on which the candidate generation for the
bishop on a1 succeeds; used to witness C2. -/
def c2wMagic : Nat := 4620697688777425424

/-- The entry generated from `c2wMagic` (bishop on a1). -/
def c2wEntry : MagicEntry :=
  (MagicEntry.generate_candidate ⟨0, by omega⟩ Kind.Bishop c2wMagic).getD ⟨[], 0, 0, 0⟩

theorem c2_magic_entry_witness :
    c2wEntry.find_attack 0 = compute_attack ⟨0, by omega⟩ 0 Kind.Bishop :=
  (c2_magic_entry_correct ⟨0, by omega⟩ Kind.Bishop c2wMagic c2wEntry
    (generate_bishop_attack_mask ⟨0, by omega⟩) rfl (by decide) 0 (by decide)).1

/-- Modelled from the spec (§7): the error kinds of the crate's missing
`errors.rs`. The message payloads carried by the Rust variants are kept but
their exact texts are not load-bearing. -/
inductive ChessMgError
  | InvalidFEN (msg : String)
  | InvalidSquare (msg : String)
deriving DecidableEq, Repr

/-- Modelled from the spec (§6 Algebraic notation, §7): parse a square as
`<file><rank>` with file `a..h` and rank `1..8`; anything else yields an
`InvalidSquare` error, which `from_fen`'s `?` propagates unchanged. -/
def Square.from_str (str : String) : Except ChessMgError Square :=
  match str.toList with
  | [f, r] =>
    let fn := f.toNat
    let rn := r.toNat
    if h : 97 ≤ fn ∧ fn ≤ 104 ∧ 49 ≤ rn ∧ rn ≤ 56 then
      Except.ok ⟨(rn - 49) * 8 + (fn - 97), by omega⟩
    else Except.error (ChessMgError.InvalidSquare str)
  | _ => Except.error (ChessMgError.InvalidSquare str)

/-- `board.rs` `Board::zero`: all bitboards empty, no castling rights. -/
def Board.zeroBoard : Board where
  to_move := Color.White
  white_pawn := 0
  white_knight := 0
  white_bishop := 0
  white_rook := 0
  white_queen := 0
  white_king := 0
  black_pawn := 0
  black_knight := 0
  black_bishop := 0
  black_rook := 0
  black_queen := 0
  black_king := 0
  casteling_rights := ⟨false, false, false, false⟩
  en_passant := none

/-- `board.rs` `from_fen`, the piece field targeted by a placement
character (`none` for an invalid character). -/
def fenPieceOfChar (ch : Char) : Option (Kind × Color) :=
  if ch = 'P' then some (Kind.Pawn, Color.White)
  else if ch = 'N' then some (Kind.Knight, Color.White)
  else if ch = 'B' then some (Kind.Bishop, Color.White)
  else if ch = 'R' then some (Kind.Rook, Color.White)
  else if ch = 'Q' then some (Kind.Queen, Color.White)
  else if ch = 'K' then some (Kind.King, Color.White)
  else if ch = 'p' then some (Kind.Pawn, Color.Black)
  else if ch = 'n' then some (Kind.Knight, Color.Black)
  else if ch = 'b' then some (Kind.Bishop, Color.Black)
  else if ch = 'r' then some (Kind.Rook, Color.Black)
  else if ch = 'q' then some (Kind.Queen, Color.Black)
  else if ch = 'k' then some (Kind.King, Color.Black)
  else none

/-- `board.rs` `from_fen`, placement of a single non-digit character: OR the
bit `(7 - rank_idx) * 8 + file` into the bitboard selected by the
character, or report an invalid piece character. -/
def fenPlaceChar (B : Board) (rank_idx file : Nat) (ch : Char) :
    Except ChessMgError Board :=
  match fenPieceOfChar ch with
  | some (k, c) => Except.ok (B.updPiece k c (fun bb => bb ||| 2 ^ ((7 - rank_idx) * 8 + file)))
  | none => Except.error (ChessMgError.InvalidFEN (String.mk ['b', 'a', 'd']))

/-- `board.rs` `from_fen`, inner loop over one rank's characters: digits
advance `file`, piece characters are placed (erroring at `file ≥ 8`), and a
rank whose files do not end at exactly 8 is an error. -/
def fenRankChars (rank_idx : Nat) : List Char → Nat → Board → Except ChessMgError Board
  | [], file, B =>
    if file ≠ 8 then Except.error (ChessMgError.InvalidFEN (String.mk ['r', 'k'])) else Except.ok B
  | ch :: rest, file, B =>
    if ch.isDigit then fenRankChars rank_idx rest (file + (ch.toNat - 48)) B
    else if 8 ≤ file then Except.error (ChessMgError.InvalidFEN (String.mk ['t', 'm']))
    else
      match fenPlaceChar B rank_idx file ch with
      | Except.error e => Except.error e
      | Except.ok B' => fenRankChars rank_idx rest (file + 1) B'

/-- `board.rs` `from_fen`, outer loop over the eight rank strings. -/
def fenRanks : List String → Nat → Board → Except ChessMgError Board
  | [], _, B => Except.ok B
  | rank_str :: rest, rank_idx, B =>
    match fenRankChars rank_idx rank_str.toList 0 B with
    | Except.error e => Except.error e
    | Except.ok B' => fenRanks rest (rank_idx + 1) B'

/-- Rust `str::split('/')` over the character list: substrings between
separators, keeping empty pieces. -/
def splitOnChar (sep : Char) : List Char → List (List Char)
  | [] => [[]]
  | c :: rest =>
    match splitOnChar sep rest with
    | [] => [[c]]
    | h :: t => if c = sep then [] :: h :: t else (c :: h) :: t

/-- Rust `str::split_whitespace` over the character list: maximal runs of
non-whitespace characters (fuelled by the remaining length). -/
def splitWsAux : Nat → List Char → List (List Char)
  | 0, _ => []
  | fuel + 1, cs =>
    match cs with
    | [] => []
    | c :: rest =>
      if c.isWhitespace then splitWsAux fuel rest
      else
        (c :: rest).takeWhile (fun d => !d.isWhitespace)
          :: splitWsAux fuel ((c :: rest).dropWhile (fun d => !d.isWhitespace))

/-- Rust `str::split_whitespace` on a string. -/
def split_whitespace (s : String) : List String :=
  (splitWsAux (s.toList.length + 1) s.toList).map String.mk

/-- Rust `str::split('/')` on a string. -/
def splitSlash (s : String) : List String :=
  (splitOnChar '/' s.toList).map String.mk

/-- Rust `str::contains(char)`. -/
def strContains (s : String) (c : Char) : Bool := s.toList.contains c

/-- `board.rs` `from_fen`, everything after the whitespace split: field
count check, placement parse, active color, castling rights, en-passant
target. Fields beyond the fourth are never read. -/
def Board.fromParts : List String → Except ChessMgError Board
  | p0 :: p1 :: p2 :: p3 :: _rest =>
    let ranks := splitSlash p0
    if ranks.length ≠ 8 then Except.error (ChessMgError.InvalidFEN (String.mk ['r', '8']))
    else
      match fenRanks ranks 0 Board.zeroBoard with
      | Except.error e => Except.error e
      | Except.ok B =>
        if p1 = "w" ∨ p1 = "b" then
          let B := { B with to_move := if p1 = "w" then Color.White else Color.Black }
          let B := { B with casteling_rights :=
            ⟨strContains p2 'K', strContains p2 'Q', strContains p2 'k', strContains p2 'q'⟩ }
          if p3 = "-" then Except.ok { B with en_passant := none }
          else
            match Square.from_str p3 with
            | Except.error e => Except.error e
            | Except.ok sq => Except.ok { B with en_passant := some sq }
        else Except.error (ChessMgError.InvalidFEN (String.mk ['a', 'c']))
  | _ => Except.error (ChessMgError.InvalidFEN (String.mk ['f', '4']))

/-- `board.rs` `Board::from_fen`. -/
def Board.from_fen (fen : String) : Except ChessMgError Board :=
  Board.fromParts (split_whitespace fen)

/-- Claim C8's placement-character condition: a digit or one of
`PNBRQKpnbrqk`. -/
def fenValidChar (c : Char) : Bool :=
  c.isDigit || c == 'P' || c == 'N' || c == 'B' || c == 'R' || c == 'Q' || c == 'K'
    || c == 'p' || c == 'n' || c == 'b' || c == 'r' || c == 'q' || c == 'k'

/-- Claim C8's file count of a rank string: digits add their value, piece
characters add one. -/
def fenRankWeight : List Char → Nat
  | [] => 0
  | c :: rest => (if c.isDigit then c.toNat - 48 else 1) + fenRankWeight rest

/-- Claim C8's per-rank condition: all characters valid and the files sum
to exactly 8. -/
def fenRankOk (r : String) : Prop :=
  (∀ c ∈ r.toList, fenValidChar c = true) ∧ fenRankWeight r.toList = 8

instance (r : String) : Decidable (fenRankOk r) := by
  unfold fenRankOk; infer_instance

/-- Claim C8's error conditions that precede the en-passant field: fewer
than 4 fields, rank count not 8, a rank's files not summing to 8, an
invalid placement character, or an invalid active color. -/
def fenSpecBadPlacementColor (parts : List String) : Prop :=
  match parts with
  | p0 :: p1 :: _p2 :: _p3 :: _ =>
    (splitSlash p0).length ≠ 8
      ∨ (∃ r ∈ splitSlash p0, ¬ fenRankOk r)
      ∨ (p1 ≠ "w" ∧ p1 ≠ "b")
  | _ => True

/-- All of claim C8's error conditions. -/
def fenSpecBad (parts : List String) : Prop :=
  match parts with
  | _p0 :: _p1 :: _p2 :: p3 :: _ =>
    fenSpecBadPlacementColor parts ∨ (p3 ≠ "-" ∧ (Square.from_str p3).isOk = false)
  | _ => True

/-- Does the result carry an `InvalidFEN` error? -/
def isInvalidFENErr : Except ChessMgError Board → Bool
  | Except.error (ChessMgError.InvalidFEN _) => true
  | _ => false

/-- Does the result carry an `InvalidSquare` error? -/
def isInvalidSquareErr : Except ChessMgError Board → Bool
  | Except.error (ChessMgError.InvalidSquare _) => true
  | _ => false

@[simp] theorem except_isOk_ok (b : Board) :
    (Except.ok (ε := ChessMgError) b).isOk = true := rfl

@[simp] theorem except_isOk_error (e : ChessMgError) :
    (Except.error (α := Board) e).isOk = false := rfl

@[simp] theorem isInvalidSquareErr_ok (b : Board) :
    isInvalidSquareErr (Except.ok b) = false := rfl

@[simp] theorem isInvalidSquareErr_fen (msg : String) :
    isInvalidSquareErr (Except.error (ChessMgError.InvalidFEN msg)) = false := rfl

@[simp] theorem isInvalidFENErr_ok (b : Board) :
    isInvalidFENErr (Except.ok b) = false := rfl

@[simp] theorem isInvalidFENErr_fen (msg : String) :
    isInvalidFENErr (Except.error (ChessMgError.InvalidFEN msg)) = true := rfl

@[simp] theorem isInvalidFENErr_sq (msg : String) :
    isInvalidFENErr (Except.error (ChessMgError.InvalidSquare msg)) = false := rfl

@[simp] theorem isInvalidSquareErr_sq (msg : String) :
    isInvalidSquareErr (Except.error (ChessMgError.InvalidSquare msg)) = true := rfl

theorem fenPieceOfChar_isSome (ch : Char) (hnd : ch.isDigit = false) :
    (fenPieceOfChar ch).isSome = fenValidChar ch := by
  unfold fenPieceOfChar
  by_cases h1 : ch = 'P'
  · subst h1; decide
  rw [if_neg h1]
  by_cases h2 : ch = 'N'
  · subst h2; decide
  rw [if_neg h2]
  by_cases h3 : ch = 'B'
  · subst h3; decide
  rw [if_neg h3]
  by_cases h4 : ch = 'R'
  · subst h4; decide
  rw [if_neg h4]
  by_cases h5 : ch = 'Q'
  · subst h5; decide
  rw [if_neg h5]
  by_cases h6 : ch = 'K'
  · subst h6; decide
  rw [if_neg h6]
  by_cases h7 : ch = 'p'
  · subst h7; decide
  rw [if_neg h7]
  by_cases h8 : ch = 'n'
  · subst h8; decide
  rw [if_neg h8]
  by_cases h9 : ch = 'b'
  · subst h9; decide
  rw [if_neg h9]
  by_cases h10 : ch = 'r'
  · subst h10; decide
  rw [if_neg h10]
  by_cases h11 : ch = 'q'
  · subst h11; decide
  rw [if_neg h11]
  by_cases h12 : ch = 'k'
  · subst h12; decide
  rw [if_neg h12]
  unfold fenValidChar
  rw [hnd, beq_false_of_ne h1, beq_false_of_ne h2, beq_false_of_ne h3, beq_false_of_ne h4, beq_false_of_ne h5, beq_false_of_ne h6, beq_false_of_ne h7, beq_false_of_ne h8, beq_false_of_ne h9, beq_false_of_ne h10, beq_false_of_ne h11, beq_false_of_ne h12]
  rfl

theorem fenPlaceChar_spec (B : Board) (rank_idx file : Nat) (ch : Char)
    (hnd : ch.isDigit = false) :
    ((fenPlaceChar B rank_idx file ch).isOk = true ↔ fenValidChar ch = true)
      ∧ isInvalidSquareErr (fenPlaceChar B rank_idx file ch) = false := by
  have hs := fenPieceOfChar_isSome ch hnd
  unfold fenPlaceChar
  cases hp : fenPieceOfChar ch with
  | none =>
    rw [hp] at hs
    simp at hs
    simp [← hs]
  | some kc =>
    rw [hp] at hs
    simp at hs
    obtain ⟨k, c⟩ := kc
    simp [← hs]

theorem fenRankChars_spec (rank_idx : Nat) :
    ∀ (cs : List Char) (file : Nat) (B : Board),
      ((fenRankChars rank_idx cs file B).isOk = true
          ↔ ((∀ c ∈ cs, fenValidChar c = true) ∧ file + fenRankWeight cs = 8))
        ∧ isInvalidSquareErr (fenRankChars rank_idx cs file B) = false := by
  intro cs
  induction cs with
  | nil =>
    intro file B
    constructor
    · unfold fenRankChars
      split_ifs with h
      · simp only [except_isOk_error, fenRankWeight]
        constructor
        · intro hf; cases hf
        · rintro ⟨-, hw⟩; omega
      · simp only [except_isOk_ok, fenRankWeight]
        constructor
        · intro _; exact ⟨by simp, by omega⟩
        · intro _; trivial
    · unfold fenRankChars
      split_ifs <;> simp
  | cons ch rest ih =>
    intro file B
    unfold fenRankChars
    by_cases hd : ch.isDigit = true
    · rw [if_pos hd]
      have hih := ih (file + (ch.toNat - 48)) B
      constructor
      · rw [hih.1]
        simp only [List.forall_mem_cons, fenRankWeight, if_pos hd]
        constructor
        · rintro ⟨hv, hw⟩
          exact ⟨⟨by simp [fenValidChar, hd], hv⟩, by omega⟩
        · rintro ⟨⟨-, hv⟩, hw⟩
          exact ⟨hv, by omega⟩
      · exact hih.2
    · rw [if_neg hd]
      have hdf : ch.isDigit = false := by
        cases hdd : ch.isDigit
        · rfl
        · exact absurd hdd hd
      by_cases hf : 8 ≤ file
      · rw [if_pos hf]
        constructor
        · simp only [except_isOk_error, List.forall_mem_cons, fenRankWeight, if_neg hd]
          constructor
          · intro hfalse; cases hfalse
          · rintro ⟨-, hw⟩; omega
        · simp
      · rw [if_neg hf]
        have hp := fenPlaceChar_spec B rank_idx file ch hdf
        cases hpc : fenPlaceChar B rank_idx file ch with
        | error e =>
          rw [hpc] at hp
          dsimp only
          have hnv : fenValidChar ch = false := by
            cases hvv : fenValidChar ch
            · rfl
            · exact absurd (hp.1.mpr hvv) (by simp)
          constructor
          · simp only [except_isOk_error, List.forall_mem_cons]
            constructor
            · intro hfalse; cases hfalse
            · rintro ⟨⟨hv, -⟩, -⟩
              rw [hnv] at hv
              cases hv
          · exact hp.2
        | ok B' =>
          rw [hpc] at hp
          dsimp only
          have hv : fenValidChar ch = true := hp.1.mp (by simp)
          have hih := ih (file + 1) B'
          constructor
          · rw [hih.1]
            simp only [List.forall_mem_cons, fenRankWeight, if_neg hd]
            constructor
            · rintro ⟨hvr, hw⟩
              exact ⟨⟨hv, hvr⟩, by omega⟩
            · rintro ⟨⟨-, hvr⟩, hw⟩
              exact ⟨hvr, by omega⟩
          · exact hih.2

theorem fenRanks_spec :
    ∀ (rs : List String) (idx : Nat) (B : Board),
      ((fenRanks rs idx B).isOk = true ↔ ∀ r ∈ rs, fenRankOk r)
        ∧ isInvalidSquareErr (fenRanks rs idx B) = false := by
  intro rs
  induction rs with
  | nil =>
    intro idx B
    exact ⟨by simp [fenRanks], by simp [fenRanks]⟩
  | cons r rest ih =>
    intro idx B
    unfold fenRanks
    have hrc := fenRankChars_spec idx r.toList 0 B
    cases hc : fenRankChars idx r.toList 0 B with
    | error e =>
      rw [hc] at hrc
      dsimp only
      have hbad : ¬ fenRankOk r := by
        rintro ⟨hv, hw⟩
        have := hrc.1.mpr ⟨hv, by omega⟩
        simp at this
      constructor
      · simp only [except_isOk_error, List.forall_mem_cons]
        constructor
        · intro hfalse; cases hfalse
        · rintro ⟨hr, -⟩; exact absurd hr hbad
      · exact hrc.2
    | ok B' =>
      rw [hc] at hrc
      dsimp only
      have hrok : fenRankOk r := by
        have h2 := hrc.1.mp (by simp)
        exact ⟨h2.1, by have := h2.2; omega⟩
      have hih := ih (idx + 1) B'
      constructor
      · rw [hih.1]
        simp [List.forall_mem_cons, hrok]
      · exact hih.2

theorem from_str_error_shape (s : String) (e : ChessMgError)
    (h : Square.from_str s = Except.error e) :
    ∃ m, e = ChessMgError.InvalidSquare m := by
  unfold Square.from_str at h
  split at h
  · dsimp only at h
    split_ifs at h
    cases h
    exact ⟨s, rfl⟩
  · cases h
    exact ⟨s, rfl⟩

theorem fromParts_spec (parts : List String) :
    ((Board.fromParts parts).isOk = false ↔ fenSpecBad parts)
      ∧ (isInvalidFENErr (Board.fromParts parts) = true
          ↔ fenSpecBadPlacementColor parts) := by
  rcases parts with _ | ⟨p0, _ | ⟨p1, _ | ⟨p2, _ | ⟨p3, rest⟩⟩⟩⟩
  · exact ⟨by simp [Board.fromParts, fenSpecBad], by simp [Board.fromParts, fenSpecBadPlacementColor]⟩
  · exact ⟨by simp [Board.fromParts, fenSpecBad], by simp [Board.fromParts, fenSpecBadPlacementColor]⟩
  · exact ⟨by simp [Board.fromParts, fenSpecBad], by simp [Board.fromParts, fenSpecBadPlacementColor]⟩
  · exact ⟨by simp [Board.fromParts, fenSpecBad], by simp [Board.fromParts, fenSpecBadPlacementColor]⟩
  · unfold Board.fromParts fenSpecBad fenSpecBadPlacementColor
    dsimp only
    by_cases h8 : (splitSlash p0).length = 8
    · rw [if_neg (not_not_intro h8)]
      have hr := fenRanks_spec (splitSlash p0) 0 Board.zeroBoard
      cases hR : fenRanks (splitSlash p0) 0 Board.zeroBoard with
      | error e =>
        rw [hR] at hr
        dsimp only
        have hex : ∃ r ∈ splitSlash p0, ¬ fenRankOk r := by
          by_contra hno
          push_neg at hno
          have := hr.1.mpr hno
          simp at this
        constructor
        · exact ⟨fun _ => Or.inl (Or.inr (Or.inl hex)), fun _ => rfl⟩
        · cases e with
          | InvalidFEN m =>
            exact ⟨fun _ => Or.inr (Or.inl hex), fun _ => rfl⟩
          | InvalidSquare m =>
            exact absurd hr.2 (by simp)
      | ok B =>
        rw [hR] at hr
        dsimp only
        have hall : ∀ r ∈ splitSlash p0, fenRankOk r := hr.1.mp (by simp)
        by_cases hc : p1 = "w" ∨ p1 = "b"
        · rw [if_pos hc]
          try dsimp only
          by_cases hep : p3 = "-"
          · rw [if_pos hep]
            constructor
            · apply iff_of_false (by simp)
              rintro ((h8' | hbad | hcol) | ⟨hne, -⟩)
              · exact h8' h8
              · obtain ⟨r, hrm, hrb⟩ := hbad; exact hrb (hall r hrm)
              · rcases hc with hw | hb
                · exact hcol.1 hw
                · exact hcol.2 hb
              · exact hne hep
            · apply iff_of_false (by simp)
              rintro (h8' | hbad | hcol)
              · exact h8' h8
              · obtain ⟨r, hrm, hrb⟩ := hbad; exact hrb (hall r hrm)
              · rcases hc with hw | hb
                · exact hcol.1 hw
                · exact hcol.2 hb
          · rw [if_neg hep]
            cases hsq : Square.from_str p3 with
            | error e2 =>
              dsimp only
              obtain ⟨m, rfl⟩ := from_str_error_shape p3 e2 hsq
              constructor
              · refine ⟨fun _ => Or.inr ⟨hep, rfl⟩, fun _ => rfl⟩
              · apply iff_of_false (by simp)
                rintro (h8' | hbad | hcol)
                · exact h8' h8
                · obtain ⟨r, hrm, hrb⟩ := hbad; exact hrb (hall r hrm)
                · rcases hc with hw | hb
                  · exact hcol.1 hw
                  · exact hcol.2 hb
            | ok sq =>
              dsimp only
              constructor
              · apply iff_of_false (by simp)
                rintro ((h8' | hbad | hcol) | ⟨-, hiok⟩)
                · exact h8' h8
                · obtain ⟨r, hrm, hrb⟩ := hbad; exact hrb (hall r hrm)
                · rcases hc with hw | hb
                  · exact hcol.1 hw
                  · exact hcol.2 hb
                · exact Bool.noConfusion hiok
              · apply iff_of_false (by simp)
                rintro (h8' | hbad | hcol)
                · exact h8' h8
                · obtain ⟨r, hrm, hrb⟩ := hbad; exact hrb (hall r hrm)
                · rcases hc with hw | hb
                  · exact hcol.1 hw
                  · exact hcol.2 hb
        · rw [if_neg hc]
          push_neg at hc
          constructor
          · exact ⟨fun _ => Or.inl (Or.inr (Or.inr hc)), fun _ => rfl⟩
          · exact ⟨fun _ => Or.inr (Or.inr hc), fun _ => rfl⟩
    · rw [if_pos h8]
      constructor
      · exact ⟨fun _ => Or.inl (Or.inl h8), fun _ => rfl⟩
      · exact ⟨fun _ => Or.inl h8, fun _ => rfl⟩

instance instDecFenBadPC : (parts : List String) → Decidable (fenSpecBadPlacementColor parts)
  | [] => isTrue trivial
  | [_] => isTrue trivial
  | [_, _] => isTrue trivial
  | [_, _, _] => isTrue trivial
  | p0 :: p1 :: _p2 :: _p3 :: _ =>
    inferInstanceAs (Decidable ((splitSlash p0).length ≠ 8
      ∨ (∃ r ∈ splitSlash p0, ¬ fenRankOk r)
      ∨ (p1 ≠ "w" ∧ p1 ≠ "b")))

instance instDecFenBad : (parts : List String) → Decidable (fenSpecBad parts)
  | [] => isTrue trivial
  | [_] => isTrue trivial
  | [_, _] => isTrue trivial
  | [_, _, _] => isTrue trivial
  | p0 :: p1 :: p2 :: p3 :: rest =>
    inferInstanceAs (Decidable (fenSpecBadPlacementColor (p0 :: p1 :: p2 :: p3 :: rest)
      ∨ (p3 ≠ "-" ∧ (Square.from_str p3).isOk = false)))

/-- C8, amended: `from_fen` returns an error exactly when the string has
fewer than 4 whitespace fields, the placement does not split into 8 ranks,
some rank's files do not sum to 8, a placement character is invalid, the
active color is invalid, or the en-passant field is neither `-` nor a
parseable square; the error is `InvalidFEN` for the first five conditions,
while the en-passant failure surfaces as the square parser's
`InvalidSquare`; the halfmove and fullmove fields never affect the result. -/
theorem c8_from_fen_errors_amended :
    (∀ fen : String,
        (((Board.from_fen fen).isOk = false) ↔ fenSpecBad (split_whitespace fen))
          ∧ (isInvalidFENErr (Board.from_fen fen) = true
              ↔ fenSpecBadPlacementColor (split_whitespace fen)))
      ∧ (∀ (p0 p1 p2 p3 : String) (rest : List String),
          Board.fromParts (p0 :: p1 :: p2 :: p3 :: rest) = Board.fromParts [p0, p1, p2, p3]) := by
  constructor
  · intro fen
    exact fromParts_spec (split_whitespace fen)
  · intro p0 p1 p2 p3 rest
    rfl

/-- A FEN string whose only defect is an unparseable en-passant field. -/
def fenBadEp : String := "8/8/8/8/8/8/8/8 w - x9"

/-- C8 counterexample: on `fenBadEp` the claim's disjunction of error
conditions holds (the en-passant field is unparseable), yet `from_fen` does
not return an `InvalidFEN` error — the square parser's `InvalidSquare`
passes through — so "returns an InvalidFEN error exactly when ..." fails. -/
theorem c8_invalid_fen_counterexample :
    isInvalidFENErr (Board.from_fen fenBadEp) = false
      ∧ fenSpecBad (split_whitespace fenBadEp)
      ∧ isInvalidSquareErr (Board.from_fen fenBadEp) = true := by
  refine ⟨by decide, by decide, by decide⟩

/-- `bitboard.rs` `pop_lsb`, index part: `u64::trailing_zeros`, fuelled by
the 64-bit width (callers only use it on nonzero 64-bit operands). -/
def trailingZerosAux : Nat → Nat → Nat
  | 0, _ => 0
  | fuel + 1, n => if n % 2 = 1 then 0 else trailingZerosAux fuel (n / 2) + 1

/-- `u64::trailing_zeros` for nonzero 64-bit operands. -/
def trailingZeros (n : Nat) : Nat := trailingZerosAux 64 n

/-- `bitboard.rs` `pop_lsb` as a pure query: `None` when the bitboard is
empty (the `unwrap` panic site of the callers), otherwise the index of the
lowest set bit; the callers clear that bit themselves via `b & (b - 1)`. -/
def popLsbIdx (b : Nat) : Option Nat :=
  if b = 0 then none else some (trailingZeros b)

/-- The `while bb != 0 { bb.pop_lsb() }` iteration pattern of `move_gen.rs`:
the visited bit indices in pop order, fuelled by the 64-bit width. -/
def popLsbList : Nat → Nat → List Nat
  | 0, _ => []
  | fuel + 1, b => if b = 0 then [] else trailingZeros b :: popLsbList fuel (b &&& (b - 1))

/-- The squares visited by a pop-lsb loop (`Square::from_usize` of each
popped index; an index ≥ 64 is a panic). -/
def squaresOfBB (b : Nat) : Option (List Square) :=
  (popLsbList 64 b).mapM Square.from_usize

/-- The process-wide `ROOK_MAGICS`/`BISHOP_MAGICS` tables of `magic.rs`:
their contents come from the on-disk cache or random generation, so the
embedding passes them as a parameter. -/
structure MagicTables where
  rook : Square → MagicEntry
  bishop : Square → MagicEntry

/-- `move_gen.rs` `gen_white_pawn_single_move`. -/
def MoveGen.gen_white_pawn_single_move (B : Board) : Option (List Move) := do
  let free_squares := u64not B.all_pieces
  let moved_pawns := u64shl B.white_pawn 8 &&& free_squares
  let promotions := moved_pawns &&& MASK_RANK 7
  let moved_pawns := moved_pawns &&& u64not (MASK_RANK 7)
  let tos ← squaresOfBB moved_pawns
  let singles ← tos.mapM (fun tq => do
    let f ← Square.from_usize (tq.val - 8)
    pure (⟨Kind.Pawn, Color.White, f, tq, false, none, false, false, none⟩ : Move))
  let ptos ← squaresOfBB promotions
  let promos ← ptos.mapM (fun tq => do
    let f ← Square.from_usize (tq.val - 8)
    pure ([⟨Kind.Pawn, Color.White, f, tq, false, some Kind.Queen, false, false, none⟩,
           ⟨Kind.Pawn, Color.White, f, tq, false, some Kind.Rook, false, false, none⟩,
           ⟨Kind.Pawn, Color.White, f, tq, false, some Kind.Bishop, false, false, none⟩,
           ⟨Kind.Pawn, Color.White, f, tq, false, some Kind.Knight, false, false, none⟩] :
      List Move))
  pure (singles ++ promos.flatten)

/-- `move_gen.rs` `gen_white_pawn_double_move`. -/
def MoveGen.gen_white_pawn_double_move (B : Board) : Option (List Move) := do
  let free_squares := u64not B.all_pieces
  let single_pushes := u64shl B.white_pawn 8 &&& free_squares
  let double_pushes := u64shl single_pushes 8 &&& free_squares &&& MASK_RANK 3
  let tos ← squaresOfBB double_pushes
  tos.mapM (fun tq => do
    let f ← Square.from_usize (tq.val - 16)
    pure (⟨Kind.Pawn, Color.White, f, tq, false, none, true, false, none⟩ : Move))

/-- `move_gen.rs` `gen_white_pawn_left_attack`. -/
def MoveGen.gen_white_pawn_left_attack (B : Board) : Option (List Move) := do
  let left_regular_attacks := u64shl B.white_pawn 7 &&& B.all_black_pieces &&& CLEAR_FILE 7
  let left_attack_promotions := left_regular_attacks &&& MASK_RANK 7
  let left_regular_attacks := left_regular_attacks &&& CLEAR_RANK 7
  let left_en_passant := u64shl B.white_pawn 7 &&& B.get_en_passant &&& CLEAR_FILE 7
  let tos ← squaresOfBB left_regular_attacks
  let regs ← tos.mapM (fun tq => do
    let f ← Square.from_usize (tq.val - 7)
    pure (⟨Kind.Pawn, Color.White, f, tq, false, none, false, false,
      B.get_piece_kind tq⟩ : Move))
  let ptos ← squaresOfBB left_attack_promotions
  let promos ← ptos.mapM (fun tq => do
    let f ← Square.from_usize (tq.val - 7)
    let cap := B.get_piece_kind tq
    pure ([⟨Kind.Pawn, Color.White, f, tq, false, some Kind.Queen, false, false, cap⟩,
           ⟨Kind.Pawn, Color.White, f, tq, false, some Kind.Rook, false, false, cap⟩,
           ⟨Kind.Pawn, Color.White, f, tq, false, some Kind.Bishop, false, false, cap⟩,
           ⟨Kind.Pawn, Color.White, f, tq, false, some Kind.Knight, false, false, cap⟩] :
      List Move))
  let eps ←
    if left_en_passant ≠ 0 then do
      let i ← popLsbIdx left_en_passant
      let tq ← Square.from_usize i
      let f ← Square.from_usize (tq.val - 7)
      pure [(⟨Kind.Pawn, Color.White, f, tq, false, none, false, true,
        some Kind.Pawn⟩ : Move)]
    else pure []
  pure (regs ++ promos.flatten ++ eps)

/-- `move_gen.rs` `gen_white_pawn_right_attack`. -/
def MoveGen.gen_white_pawn_right_attack (B : Board) : Option (List Move) := do
  let right_regular_attacks := u64shl B.white_pawn 9 &&& B.all_black_pieces &&& CLEAR_FILE 0
  let right_attack_promotions := right_regular_attacks &&& MASK_RANK 7
  let right_regular_attacks := right_regular_attacks &&& CLEAR_RANK 7
  let right_en_passant := u64shl B.white_pawn 9 &&& B.get_en_passant &&& CLEAR_FILE 0
  let tos ← squaresOfBB right_regular_attacks
  let regs ← tos.mapM (fun tq => do
    let f ← Square.from_usize (tq.val - 9)
    pure (⟨Kind.Pawn, Color.White, f, tq, false, none, false, false,
      B.get_piece_kind tq⟩ : Move))
  let ptos ← squaresOfBB right_attack_promotions
  let promos ← ptos.mapM (fun tq => do
    let f ← Square.from_usize (tq.val - 9)
    let cap := B.get_piece_kind tq
    pure ([⟨Kind.Pawn, Color.White, f, tq, false, some Kind.Queen, false, false, cap⟩,
           ⟨Kind.Pawn, Color.White, f, tq, false, some Kind.Rook, false, false, cap⟩,
           ⟨Kind.Pawn, Color.White, f, tq, false, some Kind.Bishop, false, false, cap⟩,
           ⟨Kind.Pawn, Color.White, f, tq, false, some Kind.Knight, false, false, cap⟩] :
      List Move))
  let eps ←
    if right_en_passant ≠ 0 then do
      let i ← popLsbIdx right_en_passant
      let tq ← Square.from_usize i
      let f ← Square.from_usize (tq.val - 9)
      pure [(⟨Kind.Pawn, Color.White, f, tq, false, none, false, true,
        some Kind.Pawn⟩ : Move)]
    else pure []
  pure (regs ++ promos.flatten ++ eps)

/-- `move_gen.rs` `gen_black_pawn_single_move`. -/
def MoveGen.gen_black_pawn_single_move (B : Board) : Option (List Move) := do
  let free_squares := u64not B.all_pieces
  let moved_pawns := (B.black_pawn >>> 8) &&& free_squares
  let promotions := moved_pawns &&& MASK_RANK 0
  let moved_pawns := moved_pawns &&& CLEAR_RANK 0
  let tos ← squaresOfBB moved_pawns
  let singles ← tos.mapM (fun tq => do
    let f ← Square.from_usize (tq.val + 8)
    pure (⟨Kind.Pawn, Color.Black, f, tq, false, none, false, false, none⟩ : Move))
  let ptos ← squaresOfBB promotions
  let promos ← ptos.mapM (fun tq => do
    let f ← Square.from_usize (tq.val + 8)
    pure ([⟨Kind.Pawn, Color.Black, f, tq, false, some Kind.Queen, false, false, none⟩,
           ⟨Kind.Pawn, Color.Black, f, tq, false, some Kind.Rook, false, false, none⟩,
           ⟨Kind.Pawn, Color.Black, f, tq, false, some Kind.Bishop, false, false, none⟩,
           ⟨Kind.Pawn, Color.Black, f, tq, false, some Kind.Knight, false, false, none⟩] :
      List Move))
  pure (singles ++ promos.flatten)

/-- `move_gen.rs` `gen_black_pawn_double_move`. -/
def MoveGen.gen_black_pawn_double_move (B : Board) : Option (List Move) := do
  let free_squares := u64not B.all_pieces
  let single_pushes := (B.black_pawn >>> 8) &&& free_squares
  let double_pushes := (single_pushes >>> 8) &&& free_squares &&& MASK_RANK 4
  let tos ← squaresOfBB double_pushes
  tos.mapM (fun tq => do
    let f ← Square.from_usize (tq.val + 16)
    pure (⟨Kind.Pawn, Color.Black, f, tq, false, none, true, false, none⟩ : Move))

/-- `move_gen.rs` `gen_black_pawn_left_attack`. -/
def MoveGen.gen_black_pawn_left_attack (B : Board) : Option (List Move) := do
  let left_regular_attacks := (B.black_pawn >>> 7) &&& B.all_white_pieces &&& CLEAR_FILE 0
  let left_attack_promotions := left_regular_attacks &&& MASK_RANK 0
  let left_regular_attacks := left_regular_attacks &&& CLEAR_RANK 0
  let left_en_passant := (B.black_pawn >>> 7) &&& B.get_en_passant &&& CLEAR_FILE 0
  let tos ← squaresOfBB left_regular_attacks
  let regs ← tos.mapM (fun tq => do
    let f ← Square.from_usize (tq.val + 7)
    pure (⟨Kind.Pawn, Color.Black, f, tq, false, none, false, false,
      B.get_piece_kind tq⟩ : Move))
  let ptos ← squaresOfBB left_attack_promotions
  let promos ← ptos.mapM (fun tq => do
    let f ← Square.from_usize (tq.val + 7)
    let cap := B.get_piece_kind tq
    pure ([⟨Kind.Pawn, Color.Black, f, tq, false, some Kind.Queen, false, false, cap⟩,
           ⟨Kind.Pawn, Color.Black, f, tq, false, some Kind.Rook, false, false, cap⟩,
           ⟨Kind.Pawn, Color.Black, f, tq, false, some Kind.Bishop, false, false, cap⟩,
           ⟨Kind.Pawn, Color.Black, f, tq, false, some Kind.Knight, false, false, cap⟩] :
      List Move))
  let eps ←
    if left_en_passant ≠ 0 then do
      let i ← popLsbIdx left_en_passant
      let tq ← Square.from_usize i
      let f ← Square.from_usize (tq.val + 7)
      pure [(⟨Kind.Pawn, Color.Black, f, tq, false, none, false, true,
        some Kind.Pawn⟩ : Move)]
    else pure []
  pure (regs ++ promos.flatten ++ eps)

/-- `move_gen.rs` `gen_black_pawn_right_attack`. -/
def MoveGen.gen_black_pawn_right_attack (B : Board) : Option (List Move) := do
  let right_regular_attacks := (B.black_pawn >>> 9) &&& B.all_white_pieces &&& CLEAR_FILE 7
  let right_attack_promotions := right_regular_attacks &&& MASK_RANK 0
  let right_regular_attacks := right_regular_attacks &&& CLEAR_RANK 0
  let right_en_passant := (B.black_pawn >>> 9) &&& B.get_en_passant &&& CLEAR_FILE 7
  let tos ← squaresOfBB right_regular_attacks
  let regs ← tos.mapM (fun tq => do
    let f ← Square.from_usize (tq.val + 9)
    pure (⟨Kind.Pawn, Color.Black, f, tq, false, none, false, false,
      B.get_piece_kind tq⟩ : Move))
  let ptos ← squaresOfBB right_attack_promotions
  let promos ← ptos.mapM (fun tq => do
    let f ← Square.from_usize (tq.val + 9)
    let cap := B.get_piece_kind tq
    pure ([⟨Kind.Pawn, Color.Black, f, tq, false, some Kind.Queen, false, false, cap⟩,
           ⟨Kind.Pawn, Color.Black, f, tq, false, some Kind.Rook, false, false, cap⟩,
           ⟨Kind.Pawn, Color.Black, f, tq, false, some Kind.Bishop, false, false, cap⟩,
           ⟨Kind.Pawn, Color.Black, f, tq, false, some Kind.Knight, false, false, cap⟩] :
      List Move))
  let eps ←
    if right_en_passant ≠ 0 then do
      let i ← popLsbIdx right_en_passant
      let tq ← Square.from_usize i
      let f ← Square.from_usize (tq.val + 9)
      pure [(⟨Kind.Pawn, Color.Black, f, tq, false, none, false, true,
        some Kind.Pawn⟩ : Move)]
    else pure []
  pure (regs ++ promos.flatten ++ eps)

/-- `move_gen.rs` `gen_white_pawns_moves`. -/
def MoveGen.gen_white_pawns_moves (B : Board) : Option (List Move) := do
  let a ← MoveGen.gen_white_pawn_single_move B
  let b ← MoveGen.gen_white_pawn_double_move B
  let c ← MoveGen.gen_white_pawn_left_attack B
  let d ← MoveGen.gen_white_pawn_right_attack B
  pure (a ++ b ++ c ++ d)

/-- `move_gen.rs` `gen_black_pawns_moves`. -/
def MoveGen.gen_black_pawns_moves (B : Board) : Option (List Move) := do
  let a ← MoveGen.gen_black_pawn_single_move B
  let b ← MoveGen.gen_black_pawn_double_move B
  let c ← MoveGen.gen_black_pawn_left_attack B
  let d ← MoveGen.gen_black_pawn_right_attack B
  pure (a ++ b ++ c ++ d)

/-- The eight one-square king spots with the file-clear discipline
(`move_gen.rs`, appearing verbatim in the king generators and both attack
queries). -/
def MoveGen.king_move_spots (king_bitboard : Nat) : Nat :=
  let king_clip_file_h := king_bitboard &&& CLEAR_FILE 7
  let king_clip_file_a := king_bitboard &&& CLEAR_FILE 0
  let spot1 := u64shl king_clip_file_a 7
  let spot2 := u64shl king_bitboard 8
  let spot3 := u64shl king_clip_file_h 9
  let spot4 := u64shl king_clip_file_h 1
  let spot5 := king_clip_file_h >>> 7
  let spot6 := king_bitboard >>> 8
  let spot7 := king_clip_file_a >>> 9
  let spot8 := king_clip_file_a >>> 1
  spot1 ||| spot2 ||| spot3 ||| spot4 ||| spot5 ||| spot6 ||| spot7 ||| spot8

/-- `move_gen.rs` `gen_white_king_moves` (quiet moves, captures, then the
two castling pushes guarded by rights, empty between-squares and the rook
on its corner). -/
def MoveGen.gen_white_king_moves (B : Board) : Option (List Move) := do
  let king_bitboard := B.white_king
  let moved_king := MoveGen.king_move_spots king_bitboard
  let free_squares := u64not B.all_pieces
  let no_attack := moved_king &&& free_squares
  let attacks := moved_king &&& B.all_black_pieces
  let tos1 ← squaresOfBB no_attack
  let quiets ← tos1.mapM (fun tq => do
    let i ← popLsbIdx king_bitboard
    let f ← Square.from_usize i
    pure (⟨Kind.King, Color.White, f, tq, false, none, false, false, none⟩ : Move))
  let tos2 ← squaresOfBB attacks
  let caps ← tos2.mapM (fun tq => do
    let i ← popLsbIdx king_bitboard
    let f ← Square.from_usize i
    pure (⟨Kind.King, Color.White, f, tq, false, none, false, false,
      B.get_piece_kind tq⟩ : Move))
  let ks :=
    if B.casteling_rights.white_kingside
        ∧ (B.get_piece Square.G1).isNone ∧ (B.get_piece Square.F1).isNone
        ∧ B.get_piece Square.H1 = some (Kind.Rook, Color.White) then
      [(⟨Kind.King, Color.White, Square.E1, Square.G1, true, none, false, false,
        none⟩ : Move)]
    else []
  let qs :=
    if B.casteling_rights.white_queenside
        ∧ (B.get_piece Square.B1).isNone ∧ (B.get_piece Square.C1).isNone
        ∧ (B.get_piece Square.D1).isNone
        ∧ B.get_piece Square.A1 = some (Kind.Rook, Color.White) then
      [(⟨Kind.King, Color.White, Square.E1, Square.C1, true, none, false, false,
        none⟩ : Move)]
    else []
  pure (quiets ++ caps ++ ks ++ qs)

/-- `move_gen.rs` `gen_black_king_moves`. -/
def MoveGen.gen_black_king_moves (B : Board) : Option (List Move) := do
  let king_bitboard := B.black_king
  let moved_king := MoveGen.king_move_spots king_bitboard
  let free_squares := u64not B.all_pieces
  let no_attack := moved_king &&& free_squares
  let attacks := moved_king &&& B.all_white_pieces
  let tos1 ← squaresOfBB no_attack
  let quiets ← tos1.mapM (fun tq => do
    let i ← popLsbIdx king_bitboard
    let f ← Square.from_usize i
    pure (⟨Kind.King, Color.Black, f, tq, false, none, false, false, none⟩ : Move))
  let tos2 ← squaresOfBB attacks
  let caps ← tos2.mapM (fun tq => do
    let i ← popLsbIdx king_bitboard
    let f ← Square.from_usize i
    pure (⟨Kind.King, Color.Black, f, tq, false, none, false, false,
      B.get_piece_kind tq⟩ : Move))
  let ks :=
    if B.casteling_rights.black_kingside
        ∧ (B.get_piece Square.G8).isNone ∧ (B.get_piece Square.F8).isNone
        ∧ B.get_piece Square.H8 = some (Kind.Rook, Color.Black) then
      [(⟨Kind.King, Color.Black, Square.E8, Square.G8, true, none, false, false,
        none⟩ : Move)]
    else []
  let qs :=
    if B.casteling_rights.black_queenside
        ∧ (B.get_piece Square.B8).isNone ∧ (B.get_piece Square.C8).isNone
        ∧ (B.get_piece Square.D8).isNone
        ∧ B.get_piece Square.A8 = some (Kind.Rook, Color.Black) then
      [(⟨Kind.King, Color.Black, Square.E8, Square.C8, true, none, false, false,
        none⟩ : Move)]
    else []
  pure (quiets ++ caps ++ ks ++ qs)

/-- `move_gen.rs` `gen_white_knight_moves`. -/
def MoveGen.gen_white_knight_moves (B : Board) : Option (List Move) := do
  let knightSqs ← squaresOfBB B.white_knight
  let parts ← knightSqs.mapM (fun knight_pos => do
    let knight_bitboard := square_mask knight_pos
    let moved_knight := MoveGen.gen_knight_moves knight_bitboard
    let free_squares := u64not B.all_pieces
    let no_attack := moved_knight &&& free_squares
    let attacks := moved_knight &&& B.all_black_pieces
    let tos1 ← squaresOfBB no_attack
    let quiets ← tos1.mapM (fun tq => do
      let i ← popLsbIdx knight_bitboard
      let f ← Square.from_usize i
      pure (⟨Kind.Knight, Color.White, f, tq, false, none, false, false, none⟩ : Move))
    let tos2 ← squaresOfBB attacks
    let caps ← tos2.mapM (fun tq => do
      let i ← popLsbIdx knight_bitboard
      let f ← Square.from_usize i
      pure (⟨Kind.Knight, Color.White, f, tq, false, none, false, false,
        B.get_piece_kind tq⟩ : Move))
    pure (quiets ++ caps))
  pure parts.flatten

/-- `move_gen.rs` `gen_black_knight_moves`. -/
def MoveGen.gen_black_knight_moves (B : Board) : Option (List Move) := do
  let knightSqs ← squaresOfBB B.black_knight
  let parts ← knightSqs.mapM (fun knight_pos => do
    let knight_bitboard := square_mask knight_pos
    let moved_knight := MoveGen.gen_knight_moves knight_bitboard
    let free_squares := u64not B.all_pieces
    let no_attack := moved_knight &&& free_squares
    let attacks := moved_knight &&& B.all_white_pieces
    let tos1 ← squaresOfBB no_attack
    let quiets ← tos1.mapM (fun tq => do
      let i ← popLsbIdx knight_bitboard
      let f ← Square.from_usize i
      pure (⟨Kind.Knight, Color.Black, f, tq, false, none, false, false, none⟩ : Move))
    let tos2 ← squaresOfBB attacks
    let caps ← tos2.mapM (fun tq => do
      let i ← popLsbIdx knight_bitboard
      let f ← Square.from_usize i
      pure (⟨Kind.Knight, Color.Black, f, tq, false, none, false, false,
        B.get_piece_kind tq⟩ : Move))
    pure (quiets ++ caps))
  pure parts.flatten

/-- `move_gen.rs` `gen_white_rook_moves`. -/
def MoveGen.gen_white_rook_moves (t : MagicTables) (B : Board) : Option (List Move) := do
  let rookSqs ← squaresOfBB B.white_rook
  let parts ← rookSqs.mapM (fun rook_pos => do
    let blockers := B.all_pieces &&& generate_rook_attack_mask rook_pos
      &&& u64not (2 ^ rook_pos.val)
    let att ← (t.rook rook_pos).find_attack blockers
    let moves := att &&& u64not B.all_white_pieces
    let tos ← squaresOfBB moves
    pure (tos.map (fun tq =>
      (⟨Kind.Rook, Color.White, rook_pos, tq, false, none, false, false,
        B.get_piece_kind tq⟩ : Move))))
  pure parts.flatten

/-- `move_gen.rs` `gen_black_rook_moves`. -/
def MoveGen.gen_black_rook_moves (t : MagicTables) (B : Board) : Option (List Move) := do
  let rookSqs ← squaresOfBB B.black_rook
  let parts ← rookSqs.mapM (fun rook_pos => do
    let blockers := B.all_pieces &&& generate_rook_attack_mask rook_pos
      &&& u64not (2 ^ rook_pos.val)
    let att ← (t.rook rook_pos).find_attack blockers
    let moves := att &&& u64not B.all_black_pieces
    let tos ← squaresOfBB moves
    pure (tos.map (fun tq =>
      (⟨Kind.Rook, Color.Black, rook_pos, tq, false, none, false, false,
        B.get_piece_kind tq⟩ : Move))))
  pure parts.flatten

/-- `move_gen.rs` `gen_white_bishop_moves`. -/
def MoveGen.gen_white_bishop_moves (t : MagicTables) (B : Board) : Option (List Move) := do
  let bishopSqs ← squaresOfBB B.white_bishop
  let parts ← bishopSqs.mapM (fun bishop_pos => do
    let blockers := B.all_pieces &&& generate_bishop_attack_mask bishop_pos
      &&& u64not (2 ^ bishop_pos.val)
    let att ← (t.bishop bishop_pos).find_attack blockers
    let moves := att &&& u64not B.all_white_pieces
    let tos ← squaresOfBB moves
    pure (tos.map (fun tq =>
      (⟨Kind.Bishop, Color.White, bishop_pos, tq, false, none, false, false,
        B.get_piece_kind tq⟩ : Move))))
  pure parts.flatten

/-- `move_gen.rs` `gen_black_bishop_moves`. -/
def MoveGen.gen_black_bishop_moves (t : MagicTables) (B : Board) : Option (List Move) := do
  let bishopSqs ← squaresOfBB B.black_bishop
  let parts ← bishopSqs.mapM (fun bishop_pos => do
    let blockers := B.all_pieces &&& generate_bishop_attack_mask bishop_pos
      &&& u64not (2 ^ bishop_pos.val)
    let att ← (t.bishop bishop_pos).find_attack blockers
    let moves := att &&& u64not B.all_black_pieces
    let tos ← squaresOfBB moves
    pure (tos.map (fun tq =>
      (⟨Kind.Bishop, Color.Black, bishop_pos, tq, false, none, false, false,
        B.get_piece_kind tq⟩ : Move))))
  pure parts.flatten

/-- `move_gen.rs` `gen_white_queen_moves` (rook-pattern destinations first,
then bishop-pattern, per queen square). -/
def MoveGen.gen_white_queen_moves (t : MagicTables) (B : Board) : Option (List Move) := do
  let queenSqs ← squaresOfBB B.white_queen
  let parts ← queenSqs.mapM (fun queen_pos => do
    let rook_blockers := B.all_pieces &&& generate_rook_attack_mask queen_pos
      &&& u64not (2 ^ queen_pos.val)
    let bishop_blockers := B.all_pieces &&& generate_bishop_attack_mask queen_pos
      &&& u64not (2 ^ queen_pos.val)
    let batt ← (t.bishop queen_pos).find_attack bishop_blockers
    let bishop_moves := batt &&& u64not B.all_white_pieces
    let ratt ← (t.rook queen_pos).find_attack rook_blockers
    let rook_moves := ratt &&& u64not B.all_white_pieces
    let rtos ← squaresOfBB rook_moves
    let btos ← squaresOfBB bishop_moves
    pure (rtos.map (fun tq =>
        (⟨Kind.Queen, Color.White, queen_pos, tq, false, none, false, false,
          B.get_piece_kind tq⟩ : Move))
      ++ btos.map (fun tq =>
        (⟨Kind.Queen, Color.White, queen_pos, tq, false, none, false, false,
          B.get_piece_kind tq⟩ : Move))))
  pure parts.flatten

/-- `move_gen.rs` `gen_black_queen_moves`. -/
def MoveGen.gen_black_queen_moves (t : MagicTables) (B : Board) : Option (List Move) := do
  let queenSqs ← squaresOfBB B.black_queen
  let parts ← queenSqs.mapM (fun queen_pos => do
    let rook_blockers := B.all_pieces &&& generate_rook_attack_mask queen_pos
      &&& u64not (2 ^ queen_pos.val)
    let bishop_blockers := B.all_pieces &&& generate_bishop_attack_mask queen_pos
      &&& u64not (2 ^ queen_pos.val)
    let batt ← (t.bishop queen_pos).find_attack bishop_blockers
    let bishop_moves := batt &&& u64not B.all_black_pieces
    let ratt ← (t.rook queen_pos).find_attack rook_blockers
    let rook_moves := ratt &&& u64not B.all_black_pieces
    let rtos ← squaresOfBB rook_moves
    let btos ← squaresOfBB bishop_moves
    pure (rtos.map (fun tq =>
        (⟨Kind.Queen, Color.Black, queen_pos, tq, false, none, false, false,
          B.get_piece_kind tq⟩ : Move))
      ++ btos.map (fun tq =>
        (⟨Kind.Queen, Color.Black, queen_pos, tq, false, none, false, false,
          B.get_piece_kind tq⟩ : Move))))
  pure parts.flatten

/-- `move_gen.rs` `gen_white_moves`: pawns, knights, rooks, bishops,
queens, kings, in source order. -/
def MoveGen.gen_white_moves (t : MagicTables) (B : Board) : Option (List Move) := do
  let p ← MoveGen.gen_white_pawns_moves B
  let n ← MoveGen.gen_white_knight_moves B
  let r ← MoveGen.gen_white_rook_moves t B
  let b ← MoveGen.gen_white_bishop_moves t B
  let q ← MoveGen.gen_white_queen_moves t B
  let k ← MoveGen.gen_white_king_moves B
  pure (p ++ n ++ r ++ b ++ q ++ k)

/-- `move_gen.rs` `gen_black_moves`. -/
def MoveGen.gen_black_moves (t : MagicTables) (B : Board) : Option (List Move) := do
  let p ← MoveGen.gen_black_pawns_moves B
  let n ← MoveGen.gen_black_knight_moves B
  let r ← MoveGen.gen_black_rook_moves t B
  let b ← MoveGen.gen_black_bishop_moves t B
  let q ← MoveGen.gen_black_queen_moves t B
  let k ← MoveGen.gen_black_king_moves B
  pure (p ++ n ++ r ++ b ++ q ++ k)

/-- `move_gen.rs` `gen_pseudo_moves`. -/
def MoveGen.gen_pseudo_moves (t : MagicTables) (B : Board) : Option (List Move) :=
  match B.to_move with
  | Color.White => MoveGen.gen_white_moves t B
  | Color.Black => MoveGen.gen_black_moves t B

/-- The attacker-union loops of the attack queries: OR the per-square
attack of each popped square, failing if any lookup panics. -/
def attackUnion (f : Square → Option Nat) : List Square → Nat → Option Nat
  | [], acc => some acc
  | p :: rest, acc =>
    match f p with
    | none => none
    | some m => attackUnion f rest (acc ||| m)

/-- One bishop's raw attack set by magic lookup (`move_gen.rs` attack
queries). -/
def bishopAttackFrom (t : MagicTables) (B : Board) (p : Square) : Option Nat :=
  (t.bishop p).find_attack
    (B.all_pieces &&& generate_bishop_attack_mask p &&& u64not (2 ^ p.val))

/-- One rook's raw attack set by magic lookup. -/
def rookAttackFrom (t : MagicTables) (B : Board) (p : Square) : Option Nat :=
  (t.rook p).find_attack
    (B.all_pieces &&& generate_rook_attack_mask p &&& u64not (2 ^ p.val))

/-- One queen's raw attack set: rook-pattern ORed with bishop-pattern. -/
def queenAttackFrom (t : MagicTables) (B : Board) (p : Square) : Option Nat :=
  match (t.bishop p).find_attack
      (B.all_pieces &&& generate_bishop_attack_mask p &&& u64not (2 ^ p.val)) with
  | none => none
  | some bishop_moves =>
    match (t.rook p).find_attack
        (B.all_pieces &&& generate_rook_attack_mask p &&& u64not (2 ^ p.val)) with
    | none => none
    | some rook_moves => some (rook_moves ||| bishop_moves)

/-- `move_gen.rs` `is_square_under_white_attack`. -/
def MoveGen.is_square_under_white_attack (t : MagicTables) (B : Board)
    (square : Square) : Option Bool :=
  let position := square_mask square
  let pawn_left_attacks := u64shl B.white_pawn 7 &&& CLEAR_FILE 7
  let pawn_right_attacks := u64shl B.white_pawn 9 &&& CLEAR_FILE 0
  let king_attacks := MoveGen.king_move_spots B.white_king
  match squaresOfBB B.white_knight with
  | none => none
  | some knights =>
    let knight_attacks :=
      knights.foldl (fun acc p => acc ||| MoveGen.gen_knight_moves (square_mask p)) 0
    match squaresOfBB B.white_bishop with
    | none => none
    | some bishops =>
      match attackUnion (bishopAttackFrom t B) bishops 0 with
      | none => none
      | some bishop_attacks =>
        match squaresOfBB B.white_rook with
        | none => none
        | some rooks =>
          match attackUnion (rookAttackFrom t B) rooks 0 with
          | none => none
          | some rook_attacks =>
            match squaresOfBB B.white_queen with
            | none => none
            | some queens =>
              match attackUnion (queenAttackFrom t B) queens 0 with
              | none => none
              | some queen_attacks =>
                some (decide (position
                  &&& (pawn_left_attacks ||| pawn_right_attacks ||| king_attacks
                    ||| bishop_attacks ||| knight_attacks ||| rook_attacks
                    ||| queen_attacks) ≠ 0))

/-- `move_gen.rs` `is_square_under_black_attack`. -/
def MoveGen.is_square_under_black_attack (t : MagicTables) (B : Board)
    (square : Square) : Option Bool :=
  let position := square_mask square
  let pawn_left_attacks := (B.black_pawn >>> 7) &&& CLEAR_FILE 0
  let pawn_right_attacks := (B.black_pawn >>> 9) &&& CLEAR_FILE 7
  let king_attacks := MoveGen.king_move_spots B.black_king
  match squaresOfBB B.black_knight with
  | none => none
  | some knights =>
    let knight_attacks :=
      knights.foldl (fun acc p => acc ||| MoveGen.gen_knight_moves (square_mask p)) 0
    match squaresOfBB B.black_bishop with
    | none => none
    | some bishops =>
      match attackUnion (bishopAttackFrom t B) bishops 0 with
      | none => none
      | some bishop_attacks =>
        match squaresOfBB B.black_rook with
        | none => none
        | some rooks =>
          match attackUnion (rookAttackFrom t B) rooks 0 with
          | none => none
          | some rook_attacks =>
            match squaresOfBB B.black_queen with
            | none => none
            | some queens =>
              match attackUnion (queenAttackFrom t B) queens 0 with
              | none => none
              | some queen_attacks =>
                some (decide (position
                  &&& (pawn_left_attacks ||| pawn_right_attacks ||| king_attacks
                    ||| bishop_attacks ||| knight_attacks ||| rook_attacks
                    ||| queen_attacks) ≠ 0))

/-- `move_gen.rs` `is_square_under_attack`. -/
def MoveGen.is_square_under_attack (t : MagicTables) (B : Board) (square : Square)
    (by_color : Color) : Option Bool :=
  match by_color with
  | Color.White => MoveGen.is_square_under_white_attack t B square
  | Color.Black => MoveGen.is_square_under_black_attack t B square

/-- `board.rs` `is_in_check`: locate the king of `color` (`pop_lsb`'s
`unwrap` is the panic site when the king bitboard is empty) and query
whether the opposite color attacks that square. -/
def Board.is_in_check (B : Board) (t : MagicTables) (color : Color) : Option Bool :=
  match color with
  | Color.White =>
    match popLsbIdx B.white_king with
    | none => none
    | some i =>
      match Square.from_usize i with
      | none => none
      | some king_square => MoveGen.is_square_under_attack t B king_square Color.Black
  | Color.Black =>
    match popLsbIdx B.black_king with
    | none => none
    | some i =>
      match Square.from_usize i with
      | none => none
      | some king_square => MoveGen.is_square_under_attack t B king_square Color.White

/-- `move_gen.rs` `gen_legal_moves`, castling guard: the `match m.to`
attack checks, with Rust's short-circuiting `||`; a castling destination
outside the four castle squares is a `panic!`. -/
def MoveGen.castle_attacked (t : MagicTables) (B : Board) (tq : Square) : Option Bool :=
  if tq = Square.G1 then
    match MoveGen.is_square_under_black_attack t B Square.E1 with
    | none => none
    | some true => some true
    | some false =>
      match MoveGen.is_square_under_black_attack t B Square.F1 with
      | none => none
      | some true => some true
      | some false => MoveGen.is_square_under_black_attack t B Square.G1
  else if tq = Square.C1 then
    match MoveGen.is_square_under_black_attack t B Square.E1 with
    | none => none
    | some true => some true
    | some false =>
      match MoveGen.is_square_under_black_attack t B Square.D1 with
      | none => none
      | some true => some true
      | some false => MoveGen.is_square_under_black_attack t B Square.C1
  else if tq = Square.G8 then
    match MoveGen.is_square_under_white_attack t B Square.E8 with
    | none => none
    | some true => some true
    | some false =>
      match MoveGen.is_square_under_white_attack t B Square.F8 with
      | none => none
      | some true => some true
      | some false => MoveGen.is_square_under_white_attack t B Square.G8
  else if tq = Square.C8 then
    match MoveGen.is_square_under_white_attack t B Square.E8 with
    | none => none
    | some true => some true
    | some false =>
      match MoveGen.is_square_under_white_attack t B Square.D8 with
      | none => none
      | some true => some true
      | some false => MoveGen.is_square_under_white_attack t B Square.C8
  else none

/-- `move_gen.rs` `gen_legal_moves`, body of the per-move filter: a
castling move whose traversed squares are attacked is skipped; otherwise
the move is applied to a clone and kept when the mover is not left in check
and the move does not capture a king. -/
def MoveGen.keep_move (t : MagicTables) (B : Board) (m : Move) : Option Bool :=
  let eat_king := decide (m.captured_piece = some Kind.King)
  if m.casteling then
    match MoveGen.castle_attacked t B m.to_sq with
    | none => none
    | some attacked =>
      if attacked then some false
      else
        match B.do_move m with
        | none => none
        | some tmp_board =>
          match tmp_board.is_in_check t B.to_move with
          | none => none
          | some chk => some (!chk && !eat_king)
  else
    match B.do_move m with
    | none => none
    | some tmp_board =>
      match tmp_board.is_in_check t B.to_move with
      | none => none
      | some chk => some (!chk && !eat_king)

/-- `move_gen.rs` `gen_legal_moves`, the filtering loop over the pseudo
move list. -/
def MoveGen.legal_filter (t : MagicTables) (B : Board) : List Move → Option (List Move)
  | [] => some []
  | m :: ms =>
    match MoveGen.keep_move t B m with
    | none => none
    | some keep =>
      match MoveGen.legal_filter t B ms with
      | none => none
      | some rest => some (if keep then m :: rest else rest)

/-- `move_gen.rs` `gen_legal_moves` as a function of the board: generate
pseudo moves, then filter. -/
def MoveGen.gen_legal_moves (t : MagicTables) (B : Board) : Option (List Move) :=
  match MoveGen.gen_pseudo_moves t B with
  | none => none
  | some pseudo => MoveGen.legal_filter t B pseudo

/-- `move_gen.rs` `MoveGen` (the board reference and the two move lists). -/
structure MoveGen where
  board : Board
  pseudo_move_list : List Move
  legal_move_list : List Move

/-- `move_gen.rs` `MoveGen::new`. -/
def MoveGen.new (board : Board) : MoveGen := ⟨board, [], []⟩

/-- `move_gen.rs` `gen_legal_moves` acting on the `MoveGen` state: pseudo
moves are appended to the pseudo list, which is then drained
(`std::mem::take`), and the kept moves are appended to the legal list; the
borrowed board itself is never written. -/
def MoveGen.gen_legal_moves_state (t : MagicTables) (mg : MoveGen) : Option MoveGen :=
  match MoveGen.gen_pseudo_moves t mg.board with
  | none => none
  | some generated =>
    match MoveGen.legal_filter t mg.board (mg.pseudo_move_list ++ generated) with
    | none => none
    | some kept =>
      some { board := mg.board, pseudo_move_list := [],
             legal_move_list := mg.legal_move_list ++ kept }

/-- Well-formedness of a magic table used by the totality arguments: every
entry's shift is at least 48, so the hashed index fits in a `u16` (this
holds for every generated table, whose shift is `64 - mask.count_ones()`
with masks of at most 13 bits). -/
def MagicTables.wfShift (t : MagicTables) : Prop :=
  ∀ sq : Square, 48 ≤ (t.rook sq).shift ∧ 48 ≤ (t.bishop sq).shift

instance (t : MagicTables) : Decidable t.wfShift := by
  unfold MagicTables.wfShift; infer_instance

theorem trailingZerosAux_lt : ∀ (fuel n : Nat), n ≠ 0 → n < 2 ^ fuel →
    trailingZerosAux fuel n < fuel
  | 0, n, hn, hlt => absurd (Nat.lt_one_iff.mp hlt) hn
  | fuel + 1, n, hn, hlt => by
    unfold trailingZerosAux
    by_cases h2 : n % 2 = 1
    · rw [if_pos h2]; omega
    · rw [if_neg h2]
      have hev : n % 2 = 0 := by omega
      have hn2 : n / 2 ≠ 0 := by omega
      have hlt2 : n / 2 < 2 ^ fuel := by
        rw [pow_succ] at hlt; omega
      have := trailingZerosAux_lt fuel (n / 2) hn2 hlt2
      omega

theorem trailingZeros_lt (n : Nat) (hn : n ≠ 0) (hlt : n < U64) :
    trailingZeros n < 64 :=
  trailingZerosAux_lt 64 n hn hlt

theorem popLsbList_lt : ∀ (fuel b : Nat), b < U64 →
    ∀ i ∈ popLsbList fuel b, i < 64
  | 0, _, _, _, hi => absurd hi (List.not_mem_nil _)
  | fuel + 1, b, hb, i, hi => by
    unfold popLsbList at hi
    by_cases h0 : b = 0
    · rw [if_pos h0] at hi; exact absurd hi (List.not_mem_nil _)
    · rw [if_neg h0] at hi
      rcases List.mem_cons.mp hi with h | h
      · exact h ▸ trailingZeros_lt b h0 hb
      · exact popLsbList_lt fuel (b &&& (b - 1))
          (Nat.lt_of_le_of_lt Nat.and_le_left hb) i h

theorem mapM_from_usize_total : ∀ (L : List Nat), (∀ i ∈ L, i < 64) →
    ∃ l, L.mapM Square.from_usize = some l
  | [], _ => ⟨[], rfl⟩
  | i :: is, h => by
    obtain ⟨l, hl⟩ := mapM_from_usize_total is (fun j hj => h j (List.mem_cons_of_mem _ hj))
    have hi : i < 64 := h i (List.mem_cons_self _ _)
    have hfu : Square.from_usize i = some ⟨i, hi⟩ := dif_pos hi
    exact ⟨⟨i, hi⟩ :: l, by rw [List.mapM_cons, hfu, hl]; rfl⟩

theorem squaresOfBB_total (b : Nat) (hb : b < U64) :
    ∃ l, squaresOfBB b = some l :=
  mapM_from_usize_total (popLsbList 64 b) (popLsbList_lt 64 b hb)

theorem find_attack_total (e : MagicEntry) (blockers : Nat) (h : 48 ≤ e.shift) :
    ∃ a, e.find_attack blockers = some a := by
  have h1 : wrapping_mul blockers e.magic < 2 ^ 64 :=
    Nat.mod_lt _ (by unfold U64; positivity)
  have h2 : (2 : Nat) ^ 64 ≤ 65536 * 2 ^ e.shift := by
    calc (2 : Nat) ^ 64 ≤ 2 ^ (16 + e.shift) :=
          Nat.pow_le_pow_right (by norm_num) (by omega)
      _ = 65536 * 2 ^ e.shift := by rw [pow_add]; norm_num
  have hm : wrapping_mul blockers e.magic >>> e.shift < 65536 := by
    rw [Nat.shiftRight_eq_div_pow]
    exact (Nat.div_lt_iff_lt_mul (by positivity)).mpr (lt_of_lt_of_le h1 h2)
  exact ⟨_, by simp only [MagicEntry.find_attack]; rw [if_pos hm]⟩

theorem attackUnion_total (f : Square → Option Nat) :
    ∀ (l : List Square) (acc : Nat), (∀ p ∈ l, ∃ m, f p = some m) →
      ∃ r, attackUnion f l acc = some r
  | [], acc, _ => ⟨acc, rfl⟩
  | p :: rest, acc, h => by
    obtain ⟨m, hm⟩ := h p (List.mem_cons_self _ _)
    obtain ⟨r, hr⟩ := attackUnion_total f rest (acc ||| m)
        (fun q hq => h q (List.mem_cons_of_mem _ hq))
    exact ⟨r, by unfold attackUnion; rw [hm]; exact hr⟩

theorem bishopAttackFrom_total (t : MagicTables) (B : Board) (p : Square)
    (ht : t.wfShift) : ∃ a, bishopAttackFrom t B p = some a :=
  find_attack_total _ _ (ht p).2

theorem rookAttackFrom_total (t : MagicTables) (B : Board) (p : Square)
    (ht : t.wfShift) : ∃ a, rookAttackFrom t B p = some a :=
  find_attack_total _ _ (ht p).1

theorem queenAttackFrom_total (t : MagicTables) (B : Board) (p : Square)
    (ht : t.wfShift) : ∃ a, queenAttackFrom t B p = some a := by
  obtain ⟨ba, hba⟩ := find_attack_total (t.bishop p)
    (B.all_pieces &&& generate_bishop_attack_mask p &&& u64not (2 ^ p.val)) (ht p).2
  obtain ⟨ra, hra⟩ := find_attack_total (t.rook p)
    (B.all_pieces &&& generate_rook_attack_mask p &&& u64not (2 ^ p.val)) (ht p).1
  exact ⟨ra ||| ba, by unfold queenAttackFrom; rw [hba, hra]⟩

theorem is_square_under_white_attack_total (t : MagicTables) (B : Board)
    (square : Square) (hB : B.wf64) (ht : t.wfShift) :
    ∃ b, MoveGen.is_square_under_white_attack t B square = some b := by
  obtain ⟨h1, h2, h3, h4, h5, h6, h7, h8, h9, h10, h11, h12⟩ := hB
  obtain ⟨kn, hkn⟩ := squaresOfBB_total B.white_knight h2
  obtain ⟨bs, hbs⟩ := squaresOfBB_total B.white_bishop h3
  obtain ⟨ba, hba⟩ := attackUnion_total (bishopAttackFrom t B) bs 0
      (fun p _ => bishopAttackFrom_total t B p ht)
  obtain ⟨rs, hrs⟩ := squaresOfBB_total B.white_rook h4
  obtain ⟨ra, hra⟩ := attackUnion_total (rookAttackFrom t B) rs 0
      (fun p _ => rookAttackFrom_total t B p ht)
  obtain ⟨qs, hqs⟩ := squaresOfBB_total B.white_queen h5
  obtain ⟨qa, hqa⟩ := attackUnion_total (queenAttackFrom t B) qs 0
      (fun p _ => queenAttackFrom_total t B p ht)
  rw [← Option.isSome_iff_exists]
  simp only [MoveGen.is_square_under_white_attack, hkn, hbs, hba, hrs, hra, hqs, hqa,
    Option.isSome_some]

theorem is_square_under_black_attack_total (t : MagicTables) (B : Board)
    (square : Square) (hB : B.wf64) (ht : t.wfShift) :
    ∃ b, MoveGen.is_square_under_black_attack t B square = some b := by
  obtain ⟨h1, h2, h3, h4, h5, h6, h7, h8, h9, h10, h11, h12⟩ := hB
  obtain ⟨kn, hkn⟩ := squaresOfBB_total B.black_knight h8
  obtain ⟨bs, hbs⟩ := squaresOfBB_total B.black_bishop h9
  obtain ⟨ba, hba⟩ := attackUnion_total (bishopAttackFrom t B) bs 0
      (fun p _ => bishopAttackFrom_total t B p ht)
  obtain ⟨rs, hrs⟩ := squaresOfBB_total B.black_rook h10
  obtain ⟨ra, hra⟩ := attackUnion_total (rookAttackFrom t B) rs 0
      (fun p _ => rookAttackFrom_total t B p ht)
  obtain ⟨qs, hqs⟩ := squaresOfBB_total B.black_queen h11
  obtain ⟨qa, hqa⟩ := attackUnion_total (queenAttackFrom t B) qs 0
      (fun p _ => queenAttackFrom_total t B p ht)
  rw [← Option.isSome_iff_exists]
  simp only [MoveGen.is_square_under_black_attack, hkn, hbs, hba, hrs, hra, hqs, hqa,
    Option.isSome_some]

theorem is_square_under_attack_total (t : MagicTables) (B : Board)
    (square : Square) (by_color : Color) (hB : B.wf64) (ht : t.wfShift) :
    ∃ b, MoveGen.is_square_under_attack t B square by_color = some b := by
  cases by_color
  · exact is_square_under_white_attack_total t B square hB ht
  · exact is_square_under_black_attack_total t B square hB ht

/-- The FEN of a board with a single white pawn on a2 and no kings. -/
def fenPawnOnly : String :=
  String.mk ['8', '/', '8', '/', '8', '/', '8', '/', '8', '/', '8', '/', 'P', '7',
    '/', '8', ' ', 'w', ' ', '-', ' ', '-']

/-- The board described by `fenPawnOnly`: only `white_pawn` bit 8 is set;
in particular `white_king = 0`. -/
def bC10 : Board where
  to_move := Color.White
  white_pawn := 0x100
  white_knight := 0
  white_bishop := 0
  white_rook := 0
  white_queen := 0
  white_king := 0
  black_pawn := 0
  black_knight := 0
  black_bishop := 0
  black_rook := 0
  black_queen := 0
  black_king := 0
  casteling_rights := ⟨false, false, false, false⟩
  en_passant := none

/-- The king bitboard that `is_in_check` pops for a given color. -/
def Board.king_bb (B : Board) (color : Color) : Nat :=
  match color with
  | Color.White => B.white_king
  | Color.Black => B.black_king

/-- C10: on a 64-bit well-formed board with a well-formed magic table,
`is_in_check(color)` reaches the `pop_lsb` `unwrap` panic exactly when the
king bitboard of `color` is empty; and since `from_fen` performs no
king-presence validation, a kingless board is constructible through the
public interface (`fenPawnOnly` parses to `bC10` with `white_king = 0`),
on which `is_in_check` and `gen_legal_moves` panic for every magic table. -/
theorem c10_pop_lsb_panic :
    (∀ (t : MagicTables) (B : Board) (color : Color), B.wf64 → t.wfShift →
      (B.is_in_check t color = none ↔ B.king_bb color = 0))
    ∧ Board.from_fen fenPawnOnly = Except.ok bC10
    ∧ bC10.white_king = 0
    ∧ (∀ t : MagicTables, bC10.is_in_check t Color.White = none)
    ∧ (∀ t : MagicTables, MoveGen.gen_legal_moves t bC10 = none) := by
  refine ⟨?_, rfl, rfl, fun _ => rfl, fun _ => rfl⟩
  intro t B color hB ht
  have hwk : B.white_king < U64 := hB.2.2.2.2.2.1
  have hbk : B.black_king < U64 := hB.2.2.2.2.2.2.2.2.2.2.2
  cases color
  · constructor
    · intro hnone
      by_cases hk : B.white_king = 0
      · exact hk
      · exfalso
        have hlt : trailingZeros B.white_king < 64 :=
          trailingZeros_lt _ hk hwk
        obtain ⟨b, hb⟩ :=
          is_square_under_attack_total t B ⟨_, hlt⟩ Color.Black hB ht
        have hsome : B.is_in_check t Color.White = some b := by
          unfold Board.is_in_check
          dsimp only
          rw [show popLsbIdx B.white_king
              = some (trailingZeros B.white_king) from if_neg hk]
          dsimp only
          rw [show Square.from_usize (trailingZeros B.white_king)
              = some ⟨trailingZeros B.white_king, hlt⟩ from dif_pos hlt]
          exact hb
        rw [hsome] at hnone
        exact Option.noConfusion hnone
    · intro hk
      unfold Board.is_in_check
      dsimp only
      rw [show popLsbIdx B.white_king = none from if_pos hk]
  · constructor
    · intro hnone
      by_cases hk : B.black_king = 0
      · exact hk
      · exfalso
        have hlt : trailingZeros B.black_king < 64 :=
          trailingZeros_lt _ hk hbk
        obtain ⟨b, hb⟩ :=
          is_square_under_attack_total t B ⟨_, hlt⟩ Color.White hB ht
        have hsome : B.is_in_check t Color.Black = some b := by
          unfold Board.is_in_check
          dsimp only
          rw [show popLsbIdx B.black_king
              = some (trailingZeros B.black_king) from if_neg hk]
          dsimp only
          rw [show Square.from_usize (trailingZeros B.black_king)
              = some ⟨trailingZeros B.black_king, hlt⟩ from dif_pos hlt]
          exact hb
        rw [hsome] at hnone
        exact Option.noConfusion hnone
    · intro hk
      unfold Board.is_in_check
      dsimp only
      rw [show popLsbIdx B.black_king = none from if_pos hk]

/-- The all-empty magic table entry with shift 48: a well-formed table whose
lookups always return the default attack. -/
def trivT : MagicTables where
  rook := fun _ => ⟨[], 0, 0, 48⟩
  bishop := fun _ => ⟨[], 0, 0, 48⟩

/-- Witness for C10 at a concrete board and table: `bC10` is 64-bit
well-formed and `trivT` has well-formed shifts, and the panic
characterisation instantiates to them. -/
theorem c10_pop_lsb_panic_witness :
    bC10.wf64 ∧ trivT.wfShift
      ∧ (bC10.is_in_check trivT Color.White = none ↔ bC10.king_bb Color.White = 0) :=
  ⟨by decide, by decide,
    c10_pop_lsb_panic.1 trivT bC10 Color.White (by decide) (by decide)⟩

theorem legal_filter_mem (t : MagicTables) (B : Board) :
    ∀ (ms L : List Move) (m : Move), MoveGen.legal_filter t B ms = some L →
      m ∈ L → m ∈ ms ∧ MoveGen.keep_move t B m = some true
  | [], L, m, h, hm => by
    unfold MoveGen.legal_filter at h
    cases h
    exact absurd hm (List.not_mem_nil _)
  | m0 :: rest, L, m, h, hm => by
    unfold MoveGen.legal_filter at h
    split at h
    · exact Option.noConfusion h
    · rename_i keep hkeep
      split at h
      · exact Option.noConfusion h
      · rename_i rest' hrest
        have hL : (if keep then m0 :: rest' else rest') = L := Option.some.inj h
        cases keep
        · subst hL
          have := legal_filter_mem t B rest rest' m hrest hm
          exact ⟨List.mem_cons_of_mem _ this.1, this.2⟩
        · subst hL
          rcases List.mem_cons.mp hm with heq | hmem
          · exact ⟨List.mem_cons.mpr (Or.inl heq), heq ▸ hkeep⟩
          · have := legal_filter_mem t B rest rest' m hrest hmem
            exact ⟨List.mem_cons_of_mem _ this.1, this.2⟩

theorem check_tail_some_true (t : MagicTables) (B : Board) (m : Move) (ek : Bool)
    (h : (match B.do_move m with
          | none => none
          | some tmp_board =>
            match tmp_board.is_in_check t B.to_move with
            | none => none
            | some chk => some (!chk && !ek)) = some true) :
    (∃ B', B.do_move m = some B' ∧ B'.is_in_check t B.to_move = some false)
      ∧ ek = false := by
  split at h
  · exact Option.noConfusion h
  · rename_i tmp hdo
    split at h
    · exact Option.noConfusion h
    · rename_i chk hchk
      have hb : (!chk && !ek) = true := Option.some.inj h
      have hchk0 : chk = false := by
        cases chk
        · rfl
        · simp at hb
      have hek : ek = false := by
        cases ek
        · rfl
        · simp at hb
      exact ⟨⟨tmp, hdo, hchk0 ▸ hchk⟩, hek⟩

theorem keep_move_some_true (t : MagicTables) (B : Board) (m : Move)
    (h : MoveGen.keep_move t B m = some true) :
    (∃ B', B.do_move m = some B' ∧ B'.is_in_check t B.to_move = some false)
      ∧ m.captured_piece ≠ some Kind.King := by
  by_cases hc : m.casteling = true
  · simp only [MoveGen.keep_move, hc, if_true] at h
    split at h
    · exact Option.noConfusion h
    · rename_i attacked hca
      cases attacked
      · rw [if_neg (by simp)] at h
        have := check_tail_some_true t B m (decide (m.captured_piece = some Kind.King)) h
        exact ⟨this.1, of_decide_eq_false this.2⟩
      · rw [if_pos rfl] at h
        exact Bool.noConfusion (Option.some.inj h)
  · simp only [MoveGen.keep_move, hc, if_false] at h
    have := check_tail_some_true t B m (decide (m.captured_piece = some Kind.King)) h
    exact ⟨this.1, of_decide_eq_false this.2⟩

/-- C1: every move kept by `gen_legal_moves` leaves the mover out of check
on the board obtained by `do_move` on a clone, and never captures a king. -/
theorem c1_legal_moves_safe (t : MagicTables) (B : Board) (L : List Move) (m : Move)
    (hgen : MoveGen.gen_legal_moves t B = some L) (hm : m ∈ L) :
    (∃ B', B.do_move m = some B' ∧ B'.is_in_check t B.to_move = some false)
      ∧ m.captured_piece ≠ some Kind.King := by
  unfold MoveGen.gen_legal_moves at hgen
  split at hgen
  · exact Option.noConfusion hgen
  · rename_i pseudo hpseudo
    exact keep_move_some_true t B m (legal_filter_mem t B pseudo L m hgen hm).2

theorem keep_move_castle_attacked (t : MagicTables) (B : Board) (m : Move)
    (h : MoveGen.keep_move t B m = some true) (hc : m.casteling = true) :
    MoveGen.castle_attacked t B m.to_sq = some false := by
  simp only [MoveGen.keep_move, hc, if_true] at h
  split at h
  · exact Option.noConfusion h
  · rename_i attacked hca
    cases attacked
    · exact hca
    · rw [if_pos rfl] at h
      exact Bool.noConfusion (Option.some.inj h)

theorem castle_attacked_false (t : MagicTables) (B : Board) (tq : Square)
    (h : MoveGen.castle_attacked t B tq = some false) :
    (tq = Square.G1
        ∧ MoveGen.is_square_under_black_attack t B Square.E1 = some false
        ∧ MoveGen.is_square_under_black_attack t B Square.F1 = some false
        ∧ MoveGen.is_square_under_black_attack t B Square.G1 = some false)
    ∨ (tq = Square.C1
        ∧ MoveGen.is_square_under_black_attack t B Square.E1 = some false
        ∧ MoveGen.is_square_under_black_attack t B Square.D1 = some false
        ∧ MoveGen.is_square_under_black_attack t B Square.C1 = some false)
    ∨ (tq = Square.G8
        ∧ MoveGen.is_square_under_white_attack t B Square.E8 = some false
        ∧ MoveGen.is_square_under_white_attack t B Square.F8 = some false
        ∧ MoveGen.is_square_under_white_attack t B Square.G8 = some false)
    ∨ (tq = Square.C8
        ∧ MoveGen.is_square_under_white_attack t B Square.E8 = some false
        ∧ MoveGen.is_square_under_white_attack t B Square.D8 = some false
        ∧ MoveGen.is_square_under_white_attack t B Square.C8 = some false) := by
  unfold MoveGen.castle_attacked at h
  by_cases h1 : tq = Square.G1
  · rw [if_pos h1] at h
    refine Or.inl ⟨h1, ?_⟩
    split at h
    · exact Option.noConfusion h
    · exact absurd (Option.some.inj h) (by simp)
    · rename_i hE
      split at h
      · exact Option.noConfusion h
      · exact absurd (Option.some.inj h) (by simp)
      · rename_i hF
        exact ⟨hE, hF, h⟩
  · rw [if_neg h1] at h
    by_cases h2 : tq = Square.C1
    · rw [if_pos h2] at h
      refine Or.inr (Or.inl ⟨h2, ?_⟩)
      split at h
      · exact Option.noConfusion h
      · exact absurd (Option.some.inj h) (by simp)
      · rename_i hE
        split at h
        · exact Option.noConfusion h
        · exact absurd (Option.some.inj h) (by simp)
        · rename_i hD
          exact ⟨hE, hD, h⟩
    · rw [if_neg h2] at h
      by_cases h3 : tq = Square.G8
      · rw [if_pos h3] at h
        refine Or.inr (Or.inr (Or.inl ⟨h3, ?_⟩))
        split at h
        · exact Option.noConfusion h
        · exact absurd (Option.some.inj h) (by simp)
        · rename_i hE
          split at h
          · exact Option.noConfusion h
          · exact absurd (Option.some.inj h) (by simp)
          · rename_i hF
            exact ⟨hE, hF, h⟩
      · rw [if_neg h3] at h
        by_cases h4 : tq = Square.C8
        · rw [if_pos h4] at h
          refine Or.inr (Or.inr (Or.inr ⟨h4, ?_⟩))
          split at h
          · exact Option.noConfusion h
          · exact absurd (Option.some.inj h) (by simp)
          · rename_i hE
            split at h
            · exact Option.noConfusion h
            · exact absurd (Option.some.inj h) (by simp)
            · rename_i hD
              exact ⟨hE, hD, h⟩
        · rw [if_neg h4] at h
          exact Option.noConfusion h

/-- C5: every castling move kept by `gen_legal_moves` targets one of
G1/C1/G8/C8, and the king's origin square and both traversed squares are
reported unattacked by the opposite color. -/
theorem c5_castle_filter (t : MagicTables) (B : Board) (L : List Move) (m : Move)
    (hgen : MoveGen.gen_legal_moves t B = some L) (hm : m ∈ L)
    (hc : m.casteling = true) :
    (m.to_sq = Square.G1
        ∧ MoveGen.is_square_under_black_attack t B Square.E1 = some false
        ∧ MoveGen.is_square_under_black_attack t B Square.F1 = some false
        ∧ MoveGen.is_square_under_black_attack t B Square.G1 = some false)
    ∨ (m.to_sq = Square.C1
        ∧ MoveGen.is_square_under_black_attack t B Square.E1 = some false
        ∧ MoveGen.is_square_under_black_attack t B Square.D1 = some false
        ∧ MoveGen.is_square_under_black_attack t B Square.C1 = some false)
    ∨ (m.to_sq = Square.G8
        ∧ MoveGen.is_square_under_white_attack t B Square.E8 = some false
        ∧ MoveGen.is_square_under_white_attack t B Square.F8 = some false
        ∧ MoveGen.is_square_under_white_attack t B Square.G8 = some false)
    ∨ (m.to_sq = Square.C8
        ∧ MoveGen.is_square_under_white_attack t B Square.E8 = some false
        ∧ MoveGen.is_square_under_white_attack t B Square.D8 = some false
        ∧ MoveGen.is_square_under_white_attack t B Square.C8 = some false) := by
  unfold MoveGen.gen_legal_moves at hgen
  split at hgen
  · exact Option.noConfusion hgen
  · rename_i pseudo hpseudo
    exact castle_attacked_false t B m.to_sq
      (keep_move_castle_attacked t B m
        (legal_filter_mem t B pseudo L m hgen hm).2 hc)

/-- C9: `gen_legal_moves` on the `MoveGen` state never writes the borrowed
board: when it returns, the board (all twelve bitboards, `to_move`, the
castling rights and the en-passant field) is exactly the input board;
simulation happened only on clones inside the filter. -/
theorem c9_board_unchanged (t : MagicTables) (mg mg' : MoveGen)
    (h : MoveGen.gen_legal_moves_state t mg = some mg') :
    mg'.board = mg.board := by
  unfold MoveGen.gen_legal_moves_state at h
  split at h
  · exact Option.noConfusion h
  · split at h
    · exact Option.noConfusion h
    · cases h
      rfl

/-- Witness board for C1 and C9: white king h1 and white pawn a2, black
king a8, no castling rights, White to move. -/
def bW1 : Board where
  to_move := Color.White
  white_pawn := 0x100
  white_knight := 0
  white_bishop := 0
  white_rook := 0
  white_queen := 0
  white_king := 0x80
  black_pawn := 0
  black_knight := 0
  black_bishop := 0
  black_rook := 0
  black_queen := 0
  black_king := 0x0100000000000000
  casteling_rights := ⟨false, false, false, false⟩
  en_passant := none

/-- The legal move list of `bW1` under `trivT`: the pawn pushes a3 and a4
and the king steps to g1, g2 and h2. -/
def LW1 : List Move :=
  [⟨Kind.Pawn, Color.White, ⟨8, by omega⟩, ⟨16, by omega⟩, false, none, false, false, none⟩,
   ⟨Kind.Pawn, Color.White, ⟨8, by omega⟩, ⟨24, by omega⟩, false, none, true, false, none⟩,
   ⟨Kind.King, Color.White, ⟨7, by omega⟩, ⟨6, by omega⟩, false, none, false, false, none⟩,
   ⟨Kind.King, Color.White, ⟨7, by omega⟩, ⟨14, by omega⟩, false, none, false, false, none⟩,
   ⟨Kind.King, Color.White, ⟨7, by omega⟩, ⟨15, by omega⟩, false, none, false, false, none⟩]

/-- Witness move for C1: the single pawn push a2-a3 of `bW1`. -/
def mW1 : Move :=
  ⟨Kind.Pawn, Color.White, ⟨8, by omega⟩, ⟨16, by omega⟩, false, none, false, false, none⟩

/-- Witness for C1 at `bW1`/`trivT`: the pawn push a2-a3 sits in the
computed legal list, applies cleanly, leaves White out of check and
captures no king. -/
theorem c1_legal_moves_safe_witness :
    (∃ B', bW1.do_move mW1 = some B'
        ∧ B'.is_in_check trivT bW1.to_move = some false)
      ∧ mW1.captured_piece ≠ some Kind.King :=
  c1_legal_moves_safe trivT bW1 LW1 mW1 (by decide) (by decide)

/-- Witness board for C5: white king e1 and rook h1 with the white
kingside right, black king a8, White to move, so kingside castling is
generated and kept. -/
def bC5 : Board where
  to_move := Color.White
  white_pawn := 0
  white_knight := 0
  white_bishop := 0
  white_rook := 0x80
  white_queen := 0
  white_king := 0x10
  black_pawn := 0
  black_knight := 0
  black_bishop := 0
  black_rook := 0
  black_queen := 0
  black_king := 0x0100000000000000
  casteling_rights := ⟨true, false, false, false⟩
  en_passant := none

/-- The legal move list of `bC5` under `trivT`: five king steps and the
kingside castle e1-g1 (the rook emits no moves under the trivial table). -/
def LC5 : List Move :=
  [⟨Kind.King, Color.White, ⟨4, by omega⟩, ⟨3, by omega⟩, false, none, false, false, none⟩,
   ⟨Kind.King, Color.White, ⟨4, by omega⟩, ⟨5, by omega⟩, false, none, false, false, none⟩,
   ⟨Kind.King, Color.White, ⟨4, by omega⟩, ⟨11, by omega⟩, false, none, false, false, none⟩,
   ⟨Kind.King, Color.White, ⟨4, by omega⟩, ⟨12, by omega⟩, false, none, false, false, none⟩,
   ⟨Kind.King, Color.White, ⟨4, by omega⟩, ⟨13, by omega⟩, false, none, false, false, none⟩,
   ⟨Kind.King, Color.White, ⟨4, by omega⟩, ⟨6, by omega⟩, true, none, false, false, none⟩]

/-- Witness move for C5: the white kingside castle e1-g1 of `bC5`. -/
def mC5 : Move :=
  ⟨Kind.King, Color.White, ⟨4, by omega⟩, ⟨6, by omega⟩, true, none, false, false, none⟩

/-- Witness for C5 at `bC5`/`trivT`: the kept castle targets G1 and E1, F1
and G1 are reported unattacked by Black. -/
theorem c5_castle_filter_witness :
    (mC5.to_sq = Square.G1
        ∧ MoveGen.is_square_under_black_attack trivT bC5 Square.E1 = some false
        ∧ MoveGen.is_square_under_black_attack trivT bC5 Square.F1 = some false
        ∧ MoveGen.is_square_under_black_attack trivT bC5 Square.G1 = some false)
    ∨ (mC5.to_sq = Square.C1
        ∧ MoveGen.is_square_under_black_attack trivT bC5 Square.E1 = some false
        ∧ MoveGen.is_square_under_black_attack trivT bC5 Square.D1 = some false
        ∧ MoveGen.is_square_under_black_attack trivT bC5 Square.C1 = some false)
    ∨ (mC5.to_sq = Square.G8
        ∧ MoveGen.is_square_under_white_attack trivT bC5 Square.E8 = some false
        ∧ MoveGen.is_square_under_white_attack trivT bC5 Square.F8 = some false
        ∧ MoveGen.is_square_under_white_attack trivT bC5 Square.G8 = some false)
    ∨ (mC5.to_sq = Square.C8
        ∧ MoveGen.is_square_under_white_attack trivT bC5 Square.E8 = some false
        ∧ MoveGen.is_square_under_white_attack trivT bC5 Square.D8 = some false
        ∧ MoveGen.is_square_under_white_attack trivT bC5 Square.C8 = some false) :=
  c5_castle_filter trivT bC5 LC5 mC5 (by decide) (by decide) (by decide)

/-- Witness for C9 at `bW1`/`trivT`: the state-level generator returns a
`MoveGen` whose board equals the input board. -/
theorem c9_board_unchanged_witness :
    MoveGen.gen_legal_moves_state trivT (MoveGen.new bW1)
        = some ⟨bW1, [], LW1⟩
      ∧ (⟨bW1, [], LW1⟩ : MoveGen).board = (MoveGen.new bW1).board :=
  ⟨rfl, c9_board_unchanged trivT (MoveGen.new bW1) ⟨bW1, [], LW1⟩ rfl⟩
